import Mathlib

/-! Event filters of `pkg/filters/filters.go`.

A shallow embedding of the two event filters of the exporter and of the
constructor of the field-selector filter, followed by the properties the
specification states about them.

Modelling conventions.

* A Go `string` is a Lean `String`: the text is taken to be valid UTF-8, so a
  string is its sequence of runes.  The separators `:` and `|` are one-byte
  runes, hence cutting at bytes and cutting at runes agree.
* A Go `[]string` is a `List String`; the `nil` slice is `[]`.
* A Go `map[string][]string` is a list of entries with an update that
  overwrites (`mapassign`), a lookup that yields the zero value for an absent
  key (`mapaccess`) and the key list (`mapkeys`).
* `for field := range m` visits the keys in an order Go leaves unspecified:
  the loop takes the visiting order as an argument, any permutation of the
  keys (`RangeOrder`).
* `klog.Fatalf` ends the process: the constructor returns `Except Fatal _`.
-/

set_option autoImplicit false

/-! ## The pieces of the Go library the package calls -/

namespace strings

/-- The cut of `strings.Split(s, sep)` for a separator of one rune, on the
runes of `s`: the pieces between the occurrences of `sep`, in order.  There is
always at least one piece (`Split("", ":")` is `[""]`). -/
def splitRunes (sep : Char) : List Char → List (List Char)
  | [] => [[]]
  | c :: cs =>
    if c = sep then [] :: splitRunes sep cs
    else
      match splitRunes sep cs with
      | [] => [[c]]
      | piece :: pieces => (c :: piece) :: pieces

/-- Go's `strings.Split(s, sep)` for the one-rune separators the package uses. -/
def Split (s : String) (sep : Char) : List String :=
  (splitRunes sep s.data).map String.mk

/-- Go's `strings.Join(elems, sep)`: the elements with `sep` between them. -/
def Join : List String → String → String
  | [], _ => ""
  | [a], _ => a
  | a :: b :: rest, sep => a ++ sep ++ Join (b :: rest) sep

/-- The inner loop of `strings.EqualFold`: `r := unicode.SimpleFold(sr)` and
then `for r != sr && r < tr { r = unicode.SimpleFold(r) }`, the answer being
`r == tr`.  `SimpleFold` is the folding table of Go's `unicode` package, a
parameter here; the walk along the orbit is bounded by `fuel`. -/
def foldOrbit (SimpleFold : Nat → Nat) (sr tr : Nat) : Nat → Nat → Bool
  | 0, r => r == tr
  | fuel + 1, r =>
    if r ≠ sr ∧ r < tr then foldOrbit SimpleFold sr tr fuel (SimpleFold r) else r == tr

/-- One step of `strings.EqualFold`: do the runes `sr` and `tr` (code points)
match under simple case folding?  Equal runes match; otherwise the runes are
ordered so that `sr < tr`; when both are ASCII they match exactly when `sr` is
an upper-case letter and `tr` the same letter in lower case; otherwise the
orbit of `sr` under `unicode.SimpleFold` is walked up to `tr`. -/
def equalFoldRune (SimpleFold : Nat → Nat) (sr tr : Nat) : Bool :=
  if tr = sr then true
  else
    let lo := if tr < sr then tr else sr
    let hi := if tr < sr then sr else tr
    if hi < 0x80 then
      decide (0x41 ≤ lo ∧ lo ≤ 0x5A ∧ hi = lo + 0x20)
    else
      foldOrbit SimpleFold lo hi hi (SimpleFold lo)

/-- The loop of `strings.EqualFold` over the runes of both strings: a pair of
runes that does not match, or one string ending before the other, gives
`false`. -/
def equalFoldRunes (SimpleFold : Nat → Nat) : List Char → List Char → Bool
  | [], [] => true
  | [], _ :: _ => false
  | _ :: _, [] => false
  | sr :: s, tr :: t =>
    if equalFoldRune SimpleFold sr.toNat tr.toNat then equalFoldRunes SimpleFold s t
    else false

/-- Go's `strings.EqualFold(s, t)`: equality of `s` and `t` under simple
Unicode case folding ("ignoring letter case"). -/
def EqualFold (SimpleFold : Nat → Nat) (s t : String) : Bool :=
  equalFoldRunes SimpleFold s.data t.data

/-- The lower-case form of an ASCII code point: `A` .. `Z` go to `a` .. `z`,
every other code point stays.  Two ASCII texts are "equal ignoring letter
case" when they agree rune by rune in this form (`EqualFold_ascii_iff`). -/
def asciiLower (r : Nat) : Nat :=
  if 0x41 ≤ r ∧ r ≤ 0x5A then r + 0x20 else r

/-- What Go documents of `unicode.SimpleFold`, for a relation `equiv` between
code points, "equivalent under the Unicode-defined simple case folding":
`equiv` is an equivalence relation that, on ASCII, relates the code points
with one lower-case form; `SimpleFold r` is equivalent to `r`; and when some
code point equivalent to `r` lies above `r`, `SimpleFold r` is the smallest
such code point. -/
structure SimpleFoldContract (equiv : Nat → Nat → Prop) (SimpleFold : Nat → Nat) : Prop where
  refl : ∀ r, equiv r r
  symm : ∀ a b, equiv a b → equiv b a
  trans : ∀ a b c, equiv a b → equiv b c → equiv a c
  ascii : ∀ a b, a < 0x80 → b < 0x80 → (equiv a b ↔ asciiLower a = asciiLower b)
  fold_equiv : ∀ r, equiv r (SimpleFold r)
  fold_next : ∀ r x, equiv r x → r < x → r < SimpleFold r ∧ SimpleFold r ≤ x

/-- The words of the specification, "equal, ignoring letter case": the two
texts have the same number of runes and, place by place, runes that are
equivalent under case folding.  Nothing of `EqualFold` enters. -/
def EqualIgnoringCase (equiv : Nat → Nat → Prop) (s t : String) : Prop :=
  List.Forall₂ (fun a b : Char => equiv a.toNat b.toNat) s.data t.data

/-- The representative of a code point in a sample of the folding classes:
the ASCII letters by their lower-case form, the Kelvin sign U+212A with `k`,
the long s U+017F with `s`, `É` with `é`; every other code point is alone. -/
def sampleClass (r : Nat) : Nat :=
  if r = 0x212A then 0x6B
  else if r = 0x17F then 0x73
  else if r = 0xC9 then 0xE9
  else asciiLower r

/-- Equivalence under the sample of the folding classes. -/
def sampleEquiv (a b : Nat) : Prop := sampleClass a = sampleClass b

/-- A sample of Go's folding table, on the classes of `sampleClass`: the orbits
`K → k → U+212A → K` and `S → s → U+017F → S`, each other ASCII letter with its
other case, `É ↔ é`, and every other code point fixed. -/
def sampleFold (r : Nat) : Nat :=
  if r = 0x4B then 0x6B
  else if r = 0x6B then 0x212A
  else if r = 0x212A then 0x4B
  else if r = 0x53 then 0x73
  else if r = 0x73 then 0x17F
  else if r = 0x17F then 0x53
  else if 0x41 ≤ r ∧ r ≤ 0x5A then r + 0x20
  else if 0x61 ≤ r ∧ r ≤ 0x7A then r - 0x20
  else if r = 0xC9 then 0xE9
  else if r = 0xE9 then 0xC9
  else r

end strings

namespace slices

/-- Go's `slices.Contains(s, v)`: is some `s[i]` equal to `v`? -/
def Contains (s : List String) (v : String) : Bool :=
  match s with
  | [] => false
  | x :: rest => if v = x then true else Contains rest v

end slices

namespace filters

/-! ## Constants and data -/

def Reason : String := "reason"

def InvolvedObjectKind : String := "involvedObject.kind"

def involvedObjectNamespace : String := "involvedObject.namespace"

def SupportField : List String := [Reason, involvedObjectNamespace, InvolvedObjectKind]

/-- The fields of `v1.ObjectReference` the filters read. -/
structure ObjectReference where
  Kind : String
  Namespace : String
  deriving DecidableEq, Repr

/-- The fields of `v1.Event` the filters read (`Type_` is the Go field `Type`). -/
structure Event where
  Type_ : String
  Reason : String
  InvolvedObject : ObjectReference
  deriving DecidableEq, Repr

/-- The value of the event that the `switch` of `EventFieldSelectorFilter.Filter`
looks up for a field: `event.Reason` for `reason`, `event.InvolvedObject.Kind`
for `involvedObject.kind`, `event.InvolvedObject.Namespace` for
`involvedObject.namespace`; no other field has a `case`. -/
def Event.fieldValue (event : Event) (field : String) : String :=
  if field = filters.Reason then event.Reason
  else if field = InvolvedObjectKind then event.InvolvedObject.Kind
  else if field = involvedObjectNamespace then event.InvolvedObject.Namespace
  else ""

/-! ## The type filter -/

structure EventTypeFilter where
  AllowedTypes : List String
  deriving DecidableEq, Repr

def NewEventTypeFilter (allowedTypes : List String) : EventTypeFilter :=
  { AllowedTypes := allowedTypes }

/-- The loop of `EventTypeFilter.Filter` over the allowed types still to try. -/
def typeLoop (SimpleFold : Nat → Nat) (event : Event) : List String → Bool
  | [] => false
  | allowedType :: rest =>
    if strings.EqualFold SimpleFold event.Type_ allowedType then true
    else typeLoop SimpleFold event rest

def EventTypeFilter.Filter (SimpleFold : Nat → Nat) (e : EventTypeFilter) (event : Event) : Bool :=
  typeLoop SimpleFold event e.AllowedTypes

/-! ## The field-selector filter -/

/-- A Go `map[string][]string`, as its entries. -/
abbrev FieldMap := List (String × List String)

/-- The Go expression `m[k]`: the value stored under `k`, the `nil` slice when
`k` is not a key. -/
def mapaccess : FieldMap → String → List String
  | [], _ => []
  | (k', v') :: m, k => if k' = k then v' else mapaccess m k

/-- The Go statement `m[k] = v`: the entry of `k` is overwritten when there is
one, added otherwise. -/
def mapassign : FieldMap → String → List String → FieldMap
  | [], k, v => [(k, v)]
  | (k', v') :: m, k, v => if k' = k then (k, v) :: m else (k', v') :: mapassign m k v

/-- The keys of a map. -/
def mapkeys (m : FieldMap) : List String := m.map Prod.fst

/-- The Go statement `delete(m, k)`: the map without the entry of `k`.  The
package never deletes; the operation says what "the mapping with the entry of
a field removed" is. -/
def mapdelete (m : FieldMap) (k : String) : FieldMap :=
  m.filter (fun entry => entry.1 ≠ k)

structure EventFieldSelectorFilter where
  MatchFieldSelector : FieldMap
  deriving DecidableEq, Repr

/-- The two ways `NewEventFieldSelectorFilter` ends the process through
`klog.Fatalf`. -/
inductive Fatal where
  /-- Is "selector format error, selector:%s". -/
  | selectorFormat (selector : String)
  /-- Is "only support fields: %s, unsupported field:%s, ". -/
  | unsupportedField (field : String)
  deriving DecidableEq, Repr

instance {ε α : Type} [DecidableEq ε] [DecidableEq α] : DecidableEq (Except ε α)
  | .ok a, .ok b => if h : a = b then isTrue (by rw [h]) else isFalse (by intro h'; cases h'; exact h rfl)
  | .error a, .error b => if h : a = b then isTrue (by rw [h]) else isFalse (by intro h'; cases h'; exact h rfl)
  | .ok _, .error _ => isFalse (by intro h; cases h)
  | .error _, .ok _ => isFalse (by intro h; cases h)

/-- The loop of `NewEventFieldSelectorFilter` over the selectors still to
read, `matchFieldSelector` being the map built so far. -/
def selectorLoop (matchFieldSelector : FieldMap) : List String → Except Fatal FieldMap
  | [] => .ok matchFieldSelector
  | fieldSelector :: rest =>
    match strings.Split fieldSelector ':' with
    | [field, match_] =>
      if slices.Contains SupportField field then
        let matchStrings := strings.Split match_ '|'
        selectorLoop (mapassign matchFieldSelector field matchStrings) rest
      else .error (.unsupportedField field)
    | _ => .error (.selectorFormat fieldSelector)

def NewEventFieldSelectorFilter (fieldSelectors : List String) :
    Except Fatal EventFieldSelectorFilter :=
  match selectorLoop [] fieldSelectors with
  | .ok matchFieldSelector => .ok { MatchFieldSelector := matchFieldSelector }
  | .error fatal => .error fatal

def EventFieldSelectorFilter.sliceContains (e : EventFieldSelectorFilter)
    (field element : String) : Bool :=
  let selectors := mapaccess e.MatchFieldSelector field
  slices.Contains selectors element

/-- The orders in which `for field := range e.MatchFieldSelector` may visit the
keys: Go promises none, so every arrangement of the keys is one. -/
def EventFieldSelectorFilter.RangeOrder (e : EventFieldSelectorFilter)
    (order : List String) : Prop :=
  order.Perm (mapkeys e.MatchFieldSelector)

/-- The method `EventFieldSelectorFilter.Filter`, the keys of the map being
visited in the order `order`. -/
def EventFieldSelectorFilter.Filter (e : EventFieldSelectorFilter) (order : List String)
    (event : Event) : Bool :=
  match order with
  | [] => false
  | field :: rest =>
    if field = Reason then
      if e.sliceContains Reason event.Reason then true
      else e.Filter rest event
    else if field = InvolvedObjectKind then
      if e.sliceContains InvolvedObjectKind event.InvolvedObject.Kind then true
      else e.Filter rest event
    else if field = involvedObjectNamespace then
      if e.sliceContains involvedObjectNamespace event.InvolvedObject.Namespace then true
      else e.Filter rest event
    else e.Filter rest event

end filters

/-! ## Facts about the library pieces -/

namespace strings

theorem splitRunes_ne_nil (sep : Char) (s : List Char) : splitRunes sep s ≠ [] := by
  induction s with
  | nil => simp [splitRunes]
  | cons c cs ih =>
    unfold splitRunes
    split
    · simp
    · split <;> simp

/-- The number of pieces is one more than the number of separators. -/
theorem length_splitRunes (sep : Char) (s : List Char) :
    (splitRunes sep s).length = s.count sep + 1 := by
  induction s with
  | nil => simp [splitRunes]
  | cons c cs ih =>
    unfold splitRunes
    by_cases h : c = sep
    · subst h
      simp [ih]
    · have hc : (c == sep) = false := by simpa using h
      rw [if_neg h, List.count_cons, hc]
      cases hs : splitRunes sep cs with
      | nil => exact absurd hs (splitRunes_ne_nil sep cs)
      | cons piece pieces =>
        rw [hs] at ih
        simpa using ih

/-- A text without separator is one piece. -/
theorem splitRunes_of_not_mem (sep : Char) (s : List Char) (h : sep ∉ s) :
    splitRunes sep s = [s] := by
  induction s with
  | nil => simp [splitRunes]
  | cons c cs ih =>
    have hc : c ≠ sep := fun e => h (by simp [e])
    have hcs : sep ∉ cs := fun e => h (by simp [e])
    unfold splitRunes
    rw [if_neg hc, ih hcs]

/-- The first piece ends at the first separator. -/
theorem splitRunes_append_sep (sep : Char) (a b : List Char) (h : sep ∉ a) :
    splitRunes sep (a ++ sep :: b) = a :: splitRunes sep b := by
  induction a with
  | nil => simp [splitRunes]
  | cons c cs ih =>
    have hc : c ≠ sep := fun e => h (by simp [e])
    have hcs : sep ∉ cs := fun e => h (by simp [e])
    rw [List.cons_append, splitRunes, if_neg hc, ih hcs]

/-- No piece holds a separator. -/
theorem not_mem_of_mem_splitRunes (sep : Char) (s : List Char) :
    ∀ piece ∈ splitRunes sep s, sep ∉ piece := by
  induction s with
  | nil => simp [splitRunes]
  | cons c cs ih =>
    unfold splitRunes
    by_cases h : c = sep
    · rw [if_pos h]
      intro piece hp
      rcases List.mem_cons.1 hp with rfl | hp
      · simp
      · exact ih piece hp
    · rw [if_neg h]
      cases hs : splitRunes sep cs with
      | nil => exact absurd hs (splitRunes_ne_nil sep cs)
      | cons p ps =>
        rw [hs] at ih
        intro piece hp
        rcases List.mem_cons.1 hp with rfl | hp
        · intro hmem
          rcases List.mem_cons.1 hmem with e | hmem
          · exact h e.symm
          · exact ih p (by simp) hmem
        · exact ih piece (by simp [hp])

/-- The pieces, put together again with the separator between them, are the
text that was cut. -/
theorem intercalate_splitRunes (sep : Char) (s : List Char) :
    List.intercalate [sep] (splitRunes sep s) = s := by
  induction s with
  | nil => simp [splitRunes, List.intercalate]
  | cons c cs ih =>
    unfold splitRunes
    by_cases h : c = sep
    · rw [if_pos h]
      cases hs : splitRunes sep cs with
      | nil => exact absurd hs (splitRunes_ne_nil sep cs)
      | cons p ps =>
        rw [hs] at ih
        subst h
        simpa [List.intercalate, List.intersperse] using ih
    · rw [if_neg h]
      cases hs : splitRunes sep cs with
      | nil => exact absurd hs (splitRunes_ne_nil sep cs)
      | cons p ps =>
        rw [hs] at ih
        cases ps with
        | nil => simpa [List.intercalate, List.intersperse] using ih
        | cons q qs => simpa [List.intercalate, List.intersperse] using ih

/-- Cutting the text made of separator-free values joined by the separator
gives the values back. -/
theorem splitRunes_intercalate (sep : Char) (vs : List (List Char)) (hne : vs ≠ [])
    (h : ∀ v ∈ vs, sep ∉ v) : splitRunes sep (List.intercalate [sep] vs) = vs := by
  induction vs with
  | nil => exact absurd rfl hne
  | cons v rest ih =>
    cases rest with
    | nil =>
      simpa [List.intercalate, List.intersperse] using
        splitRunes_of_not_mem sep v (h v (by simp))
    | cons w ws =>
      have hrest : splitRunes sep (List.intercalate [sep] (w :: ws)) = w :: ws :=
        ih (by simp) (fun x hx => h x (by simp [hx]))
      have hv : sep ∉ v := h v (by simp)
      have e : List.intercalate [sep] (v :: w :: ws)
          = v ++ sep :: List.intercalate [sep] (w :: ws) := by
        simp [List.intercalate, List.intersperse]
      rw [e, splitRunes_append_sep sep v _ hv, hrest]

theorem splitRunes_eq_pair_iff (sep : Char) (s a b : List Char) :
    splitRunes sep s = [a, b] ↔ s = a ++ sep :: b ∧ sep ∉ a ∧ sep ∉ b := by
  constructor
  · intro h
    have hj := intercalate_splitRunes sep s
    have hn := not_mem_of_mem_splitRunes sep s
    rw [h] at hj hn
    refine ⟨?_, hn a (by simp), hn b (by simp)⟩
    rw [← hj]
    simp [List.intercalate, List.intersperse]
  · rintro ⟨rfl, ha, hb⟩
    rw [splitRunes_append_sep sep a b ha, splitRunes_of_not_mem sep b hb]

/-- On ASCII runes the step of `EqualFold` compares the lower-case forms,
whatever the folding table. -/
theorem equalFoldRune_ascii (SimpleFold : Nat → Nat) (a b : Nat) (ha : a < 0x80)
    (hb : b < 0x80) : equalFoldRune SimpleFold a b = true ↔ asciiLower a = asciiLower b := by
  unfold equalFoldRune asciiLower
  by_cases hab : b = a
  · subst hab
    simp
  · rw [if_neg hab]
    by_cases hlt : b < a
    · simp only [hlt, if_true, ha, decide_eq_true_eq]
      split_ifs <;> omega
    · simp only [hlt, if_false, hb, if_true, decide_eq_true_eq]
      split_ifs <;> omega

/-- On ASCII texts `EqualFold` is equality of the lower-case forms, whatever
the folding table. -/
theorem equalFoldRunes_ascii (SimpleFold : Nat → Nat) (s t : List Char)
    (hs : ∀ c ∈ s, c.toNat < 0x80) (ht : ∀ c ∈ t, c.toNat < 0x80) :
    equalFoldRunes SimpleFold s t = true ↔
      s.map (fun c => asciiLower c.toNat) = t.map (fun c => asciiLower c.toNat) := by
  induction s generalizing t with
  | nil =>
    cases t with
    | nil => simp [equalFoldRunes]
    | cons d t => simp [equalFoldRunes]
  | cons c s ih =>
    cases t with
    | nil => simp [equalFoldRunes]
    | cons d t =>
      have hc := hs c (by simp)
      have hd := ht d (by simp)
      have hrest := ih t (fun x hx => hs x (by simp [hx])) (fun x hx => ht x (by simp [hx]))
      have hrune := equalFoldRune_ascii SimpleFold c.toNat d.toNat hc hd
      unfold equalFoldRunes
      by_cases h : equalFoldRune SimpleFold c.toNat d.toNat = true
      · rw [if_pos h, hrest]
        simp [hrune.1 h]
      · rw [if_neg h]
        have hne : ¬ asciiLower c.toNat = asciiLower d.toNat := fun e => h (hrune.2 e)
        simp [hne]

theorem EqualFold_ascii_iff (SimpleFold : Nat → Nat) (s t : String)
    (hs : ∀ c ∈ s.data, c.toNat < 0x80) (ht : ∀ c ∈ t.data, c.toNat < 0x80) :
    EqualFold SimpleFold s t = true ↔
      s.data.map (fun c => asciiLower c.toNat) = t.data.map (fun c => asciiLower c.toNat) :=
  equalFoldRunes_ascii SimpleFold s.data t.data hs ht

/-- The walk along the orbit answers `true` only for a rune equivalent to the
one it started from. -/
theorem foldOrbit_sound (equiv : Nat → Nat → Prop) (SimpleFold : Nat → Nat)
    (h : SimpleFoldContract equiv SimpleFold) (lo hi : Nat) :
    ∀ fuel r, equiv lo r → foldOrbit SimpleFold lo hi fuel r = true → equiv lo hi := by
  intro fuel
  induction fuel with
  | zero =>
    intro r hr hres
    have : r = hi := by simpa [foldOrbit] using hres
    rw [← this]
    exact hr
  | succ fuel ih =>
    intro r hr hres
    unfold foldOrbit at hres
    by_cases hc : r ≠ lo ∧ r < hi
    · rw [if_pos hc] at hres
      exact ih (SimpleFold r) (h.trans lo r _ hr (h.fold_equiv r)) hres
    · rw [if_neg hc] at hres
      have : r = hi := by simpa using hres
      rw [← this]
      exact hr

/-- The walk along the orbit reaches every equivalent rune above its start
before the fuel is spent. -/
theorem foldOrbit_complete (equiv : Nat → Nat → Prop) (SimpleFold : Nat → Nat)
    (h : SimpleFoldContract equiv SimpleFold) (lo hi : Nat) :
    ∀ fuel r, lo < r → r ≤ hi → equiv r hi → hi - r ≤ fuel →
      foldOrbit SimpleFold lo hi fuel r = true := by
  intro fuel
  induction fuel with
  | zero =>
    intro r _ hle _ hfuel
    have : r = hi := by omega
    simp [foldOrbit, this]
  | succ fuel ih =>
    intro r hlo hle hr hfuel
    unfold foldOrbit
    by_cases hlt : r < hi
    · have hc : r ≠ lo ∧ r < hi := ⟨by omega, hlt⟩
      rw [if_pos hc]
      obtain ⟨hup, hbound⟩ := h.fold_next r hi hr hlt
      have hnext : equiv (SimpleFold r) hi :=
        h.trans _ r hi (h.symm _ _ (h.fold_equiv r)) hr
      exact ih (SimpleFold r) (by omega) hbound hnext (by omega)
    · have hc : ¬ (r ≠ lo ∧ r < hi) := fun hc => hlt hc.2
      rw [if_neg hc]
      have : r = hi := by omega
      simp [this]

theorem foldOrbit_iff (equiv : Nat → Nat → Prop) (SimpleFold : Nat → Nat)
    (h : SimpleFoldContract equiv SimpleFold) (lo hi : Nat) (hlt : lo < hi) :
    foldOrbit SimpleFold lo hi hi (SimpleFold lo) = true ↔ equiv lo hi := by
  constructor
  · exact foldOrbit_sound equiv SimpleFold h lo hi hi _ (h.fold_equiv lo)
  · intro he
    obtain ⟨hup, hbound⟩ := h.fold_next lo hi he hlt
    exact foldOrbit_complete equiv SimpleFold h lo hi hi _ hup hbound
      (h.trans _ lo hi (h.symm _ _ (h.fold_equiv lo)) he) (by omega)

/-- With a folding table that keeps its contract, the step of `EqualFold`
decides the equivalence of two runes under case folding. -/
theorem equalFoldRune_iff (equiv : Nat → Nat → Prop) (SimpleFold : Nat → Nat)
    (h : SimpleFoldContract equiv SimpleFold) (a b : Nat) :
    equalFoldRune SimpleFold a b = true ↔ equiv a b := by
  by_cases hascii : a < 0x80 ∧ b < 0x80
  · rw [equalFoldRune_ascii SimpleFold a b hascii.1 hascii.2, h.ascii a b hascii.1 hascii.2]
  · by_cases hab : b = a
    · subst hab
      simp [equalFoldRune, h.refl b]
    · unfold equalFoldRune
      rw [if_neg hab]
      by_cases hlt : b < a
      · have hhi : ¬ a < 0x80 := fun ha => hascii ⟨ha, by omega⟩
        simp only [hlt, if_true, hhi, if_false]
        rw [foldOrbit_iff equiv SimpleFold h b a hlt]
        exact ⟨h.symm b a, h.symm a b⟩
      · have hlt' : a < b := by omega
        have hhi : ¬ b < 0x80 := fun hb => hascii ⟨by omega, hb⟩
        simp only [hlt, if_false, hhi]
        exact foldOrbit_iff equiv SimpleFold h a b hlt'

theorem equalFoldRunes_iff (equiv : Nat → Nat → Prop) (SimpleFold : Nat → Nat)
    (h : SimpleFoldContract equiv SimpleFold) (s t : List Char) :
    equalFoldRunes SimpleFold s t = true ↔
      List.Forall₂ (fun a b : Char => equiv a.toNat b.toNat) s t := by
  induction s generalizing t with
  | nil =>
    cases t with
    | nil => simp [equalFoldRunes]
    | cons d t => simp [equalFoldRunes]
  | cons c s ih =>
    cases t with
    | nil => simp [equalFoldRunes]
    | cons d t =>
      have hrune := equalFoldRune_iff equiv SimpleFold h c.toNat d.toNat
      unfold equalFoldRunes
      rw [List.forall₂_cons]
      by_cases hcd : equalFoldRune SimpleFold c.toNat d.toNat = true
      · rw [if_pos hcd, ih t]
        exact ⟨fun hrest => ⟨hrune.1 hcd, hrest⟩, fun hboth => hboth.2⟩
      · rw [if_neg hcd]
        constructor
        · intro hfalse
          cases hfalse
        · intro hboth
          exact absurd (hrune.2 hboth.1) hcd

/-- With a folding table that keeps its contract, `EqualFold` decides
"equal, ignoring letter case". -/
theorem EqualFold_iff (equiv : Nat → Nat → Prop) (SimpleFold : Nat → Nat)
    (h : SimpleFoldContract equiv SimpleFold) (s t : String) :
    EqualFold SimpleFold s t = true ↔ EqualIgnoringCase equiv s t :=
  equalFoldRunes_iff equiv SimpleFold h s.data t.data

/-- The branches of `sampleClass`, one by one. -/
theorem sampleClass_cases (r : Nat) :
    (r = 0x212A ∧ sampleClass r = 0x6B) ∨ (r = 0x17F ∧ sampleClass r = 0x73) ∨
    (r = 0xC9 ∧ sampleClass r = 0xE9) ∨
    (r ≠ 0x212A ∧ r ≠ 0x17F ∧ r ≠ 0xC9 ∧ 0x41 ≤ r ∧ r ≤ 0x5A ∧ sampleClass r = r + 0x20) ∨
    (r ≠ 0x212A ∧ r ≠ 0x17F ∧ r ≠ 0xC9 ∧ ¬ (0x41 ≤ r ∧ r ≤ 0x5A) ∧ sampleClass r = r) := by
  generalize hv : sampleClass r = v
  unfold sampleClass asciiLower at hv
  by_cases h1 : r = 0x212A
  · rw [if_pos h1] at hv; omega
  rw [if_neg h1] at hv
  by_cases h2 : r = 0x17F
  · rw [if_pos h2] at hv; omega
  rw [if_neg h2] at hv
  by_cases h3 : r = 0xC9
  · rw [if_pos h3] at hv; omega
  rw [if_neg h3] at hv
  by_cases h4 : 0x41 ≤ r ∧ r ≤ 0x5A
  · rw [if_pos h4] at hv; omega
  · rw [if_neg h4] at hv; omega

/-- The branches of `sampleFold`, one by one. -/
theorem sampleFold_cases (r : Nat) :
    (r = 0x4B ∧ sampleFold r = 0x6B) ∨ (r = 0x6B ∧ sampleFold r = 0x212A) ∨
    (r = 0x212A ∧ sampleFold r = 0x4B) ∨ (r = 0x53 ∧ sampleFold r = 0x73) ∨
    (r = 0x73 ∧ sampleFold r = 0x17F) ∨ (r = 0x17F ∧ sampleFold r = 0x53) ∨
    (r = 0xC9 ∧ sampleFold r = 0xE9) ∨ (r = 0xE9 ∧ sampleFold r = 0xC9) ∨
    (0x41 ≤ r ∧ r ≤ 0x5A ∧ r ≠ 0x4B ∧ r ≠ 0x53 ∧ sampleFold r = r + 0x20) ∨
    (0x61 ≤ r ∧ r ≤ 0x7A ∧ r ≠ 0x6B ∧ r ≠ 0x73 ∧ sampleFold r = r - 0x20) ∨
    (¬ (0x41 ≤ r ∧ r ≤ 0x5A) ∧ ¬ (0x61 ≤ r ∧ r ≤ 0x7A) ∧ r ≠ 0x212A ∧ r ≠ 0x17F ∧
      r ≠ 0xC9 ∧ r ≠ 0xE9 ∧ sampleFold r = r) := by
  generalize hv : sampleFold r = v
  unfold sampleFold at hv
  by_cases h1 : r = 0x4B
  · rw [if_pos h1] at hv; left; exact ⟨h1, hv.symm⟩
  rw [if_neg h1] at hv
  by_cases h2 : r = 0x6B
  · rw [if_pos h2] at hv; right; left; exact ⟨h2, hv.symm⟩
  rw [if_neg h2] at hv
  by_cases h3 : r = 0x212A
  · rw [if_pos h3] at hv; right; right; left; exact ⟨h3, hv.symm⟩
  rw [if_neg h3] at hv
  by_cases h4 : r = 0x53
  · rw [if_pos h4] at hv; right; right; right; left; exact ⟨h4, hv.symm⟩
  rw [if_neg h4] at hv
  by_cases h5 : r = 0x73
  · rw [if_pos h5] at hv; right; right; right; right; left; exact ⟨h5, hv.symm⟩
  rw [if_neg h5] at hv
  by_cases h6 : r = 0x17F
  · rw [if_pos h6] at hv; right; right; right; right; right; left; exact ⟨h6, hv.symm⟩
  rw [if_neg h6] at hv
  by_cases h7 : 0x41 ≤ r ∧ r ≤ 0x5A
  · rw [if_pos h7] at hv; right; right; right; right; right; right; right; right; left; exact ⟨h7.1, h7.2, h1, h4, hv.symm⟩
  rw [if_neg h7] at hv
  by_cases h8 : 0x61 ≤ r ∧ r ≤ 0x7A
  · rw [if_pos h8] at hv; right; right; right; right; right; right; right; right; right; left; exact ⟨h8.1, h8.2, h2, h5, hv.symm⟩
  rw [if_neg h8] at hv
  by_cases h9 : r = 0xC9
  · rw [if_pos h9] at hv; right; right; right; right; right; right; left; exact ⟨h9, hv.symm⟩
  rw [if_neg h9] at hv
  by_cases h10 : r = 0xE9
  · rw [if_pos h10] at hv; right; right; right; right; right; right; right; left; exact ⟨h10, hv.symm⟩
  rw [if_neg h10] at hv
  right; right; right; right; right; right; right; right; right; right; exact ⟨h7, h8, h3, h6, h9, h10, hv.symm⟩

/-- The sample table keeps the contract of `unicode.SimpleFold` for the sample
classes. -/
theorem sampleFold_contract : SimpleFoldContract sampleEquiv sampleFold where
  refl := fun _ => rfl
  symm := fun _ _ hab => hab.symm
  trans := fun _ _ _ hab hbc => hab.trans hbc
  ascii := by
    intro a b ha hb
    unfold sampleEquiv sampleClass
    have ha1 : ¬ a = 0x212A := by omega
    have ha2 : ¬ a = 0x17F := by omega
    have ha3 : ¬ a = 0xC9 := by omega
    have hb1 : ¬ b = 0x212A := by omega
    have hb2 : ¬ b = 0x17F := by omega
    have hb3 : ¬ b = 0xC9 := by omega
    rw [if_neg ha1, if_neg ha2, if_neg ha3, if_neg hb1, if_neg hb2, if_neg hb3]
  fold_equiv := by
    intro r
    unfold sampleEquiv
    have h1 := sampleClass_cases r
    have h2 := sampleFold_cases r
    have h3 := sampleClass_cases (sampleFold r)
    generalize sampleClass (sampleFold r) = c at *
    generalize sampleClass r = d at *
    generalize sampleFold r = f at *
    omega
  fold_next := by
    intro r x hrx hlt
    unfold sampleEquiv at hrx
    have h1 := sampleClass_cases r
    have h2 := sampleFold_cases r
    have h3 := sampleClass_cases x
    generalize sampleClass x = c at *
    generalize sampleClass r = d at *
    generalize sampleFold r = f at *
    omega

theorem length_Split (s : String) (sep : Char) :
    (Split s sep).length = s.data.count sep + 1 := by
  simp [Split, length_splitRunes]

theorem Split_eq_pair_iff (s a b : String) :
    Split s ':' = [a, b] ↔ s = a ++ ":" ++ b ∧ ':' ∉ a.data ∧ ':' ∉ b.data := by
  have key := splitRunes_eq_pair_iff ':' s.data a.data b.data
  have hd : s = a ++ ":" ++ b ↔ s.data = a.data ++ ':' :: b.data := by
    rw [String.ext_iff]
    simp [String.data_append]
  rw [hd, ← key]
  unfold Split
  constructor
  · intro h
    have h2 := congrArg (List.map String.data) h
    simpa [List.map_map, Function.comp_def] using h2
  · intro h
    rw [h]
    rfl

theorem data_Join (vs : List String) (sep : Char) :
    (Join vs (String.singleton sep)).data = List.intercalate [sep] (vs.map String.data) := by
  induction vs with
  | nil => simp [Join, List.intercalate]
  | cons v rest ih =>
    cases rest with
    | nil => simp [Join, List.intercalate, List.intersperse]
    | cons w ws =>
      rw [Join, String.data_append, String.data_append, ih]
      simp [List.intercalate, List.intersperse, String.singleton]

/-- Cutting at `sep` the join of values that hold no `sep` gives the values. -/
theorem Split_Join (vs : List String) (sep : Char) (hne : vs ≠ [])
    (h : ∀ v ∈ vs, sep ∉ v.data) : Split (Join vs (String.singleton sep)) sep = vs := by
  unfold Split
  rw [data_Join, splitRunes_intercalate sep _ (by simpa using hne)
    (by
      intro v hv
      rcases List.mem_map.1 hv with ⟨w, hw, rfl⟩
      exact h w hw)]
  simp [List.map_map, Function.comp_def]

theorem not_mem_data_Join (vs : List String) (sep c : Char) (hc : c ≠ sep)
    (h : ∀ v ∈ vs, c ∉ v.data) : c ∉ (Join vs (String.singleton sep)).data := by
  induction vs with
  | nil => simp [Join]
  | cons v rest ih =>
    cases rest with
    | nil => simpa [Join] using h v (by simp)
    | cons w ws =>
      rw [Join, String.data_append, String.data_append]
      have h1 := h v (by simp)
      have h2 := ih (fun x hx => h x (by simp [hx]))
      simp only [List.mem_append, not_or]
      exact ⟨⟨h1, by simpa [String.singleton] using hc⟩, h2⟩

end strings

namespace slices

theorem Contains_iff (s : List String) (v : String) : Contains s v = true ↔ v ∈ s := by
  induction s with
  | nil => simp [Contains]
  | cons x rest ih =>
    unfold Contains
    by_cases h : v = x
    · simp [h]
    · simp [h, ih]

end slices

namespace filters

/-! ## Facts about the map operations and the loops -/

theorem Reason_ne_Kind : Reason ≠ InvolvedObjectKind := by decide

theorem Reason_ne_Namespace : Reason ≠ involvedObjectNamespace := by decide

theorem Kind_ne_Namespace : InvolvedObjectKind ≠ involvedObjectNamespace := by decide

theorem mem_SupportField (field : String) :
    slices.Contains SupportField field = true ↔
      (field = Reason ∨ field = InvolvedObjectKind ∨ field = involvedObjectNamespace) := by
  rw [slices.Contains_iff]
  simp only [SupportField, List.mem_cons, List.mem_singleton, List.not_mem_nil, or_false]
  tauto

/-- A supported field name holds no `:`. -/
theorem colon_not_mem_field (field : String)
    (h : field = Reason ∨ field = InvolvedObjectKind ∨ field = involvedObjectNamespace) :
    ':' ∉ field.data := by
  rcases h with rfl | rfl | rfl <;> decide

theorem mapaccess_mapassign (m : FieldMap) (k k' : String) (v : List String) :
    mapaccess (mapassign m k v) k' = if k' = k then v else mapaccess m k' := by
  induction m with
  | nil =>
    by_cases h : k = k'
    · simp [mapassign, mapaccess, h]
    · have h' : ¬ k' = k := fun e => h e.symm
      simp [mapassign, mapaccess, h, h']
  | cons p m ih =>
    obtain ⟨k0, v0⟩ := p
    unfold mapassign
    by_cases h0 : k0 = k
    · subst h0
      by_cases h : k0 = k'
      · simp [mapaccess, h]
      · have h' : ¬ k' = k0 := fun e => h e.symm
        simp [mapaccess, h, h']
    · rw [if_neg h0]
      by_cases h : k0 = k'
      · have h' : ¬ k' = k := fun e => h0 (h.trans e)
        simp [mapaccess, h, h']
      · simp only [mapaccess, h, if_false]
        exact ih

theorem mem_mapkeys_mapassign (m : FieldMap) (k k' : String) (v : List String) :
    k' ∈ mapkeys (mapassign m k v) ↔ k' = k ∨ k' ∈ mapkeys m := by
  induction m with
  | nil => simp [mapassign, mapkeys]
  | cons p m ih =>
    obtain ⟨k0, v0⟩ := p
    unfold mapassign
    by_cases h0 : k0 = k
    · subst h0
      simp [mapkeys]
    · rw [if_neg h0]
      simp only [mapkeys, List.map_cons, List.mem_cons] at ih ⊢
      rw [ih]
      tauto

theorem nodup_mapkeys_mapassign (m : FieldMap) (k : String) (v : List String)
    (h : (mapkeys m).Nodup) : (mapkeys (mapassign m k v)).Nodup := by
  induction m with
  | nil => simp [mapassign, mapkeys]
  | cons p m ih =>
    obtain ⟨k0, v0⟩ := p
    unfold mapassign
    by_cases h0 : k0 = k
    · subst h0
      simpa [mapkeys] using h
    · rw [if_neg h0]
      have hn : k0 ∉ mapkeys m ∧ (mapkeys m).Nodup := by
        simpa [mapkeys] using h
      have hk : k0 ∉ mapkeys (mapassign m k v) := by
        rw [mem_mapkeys_mapassign]
        rintro (e | e)
        · exact h0 e
        · exact hn.1 e
      have := ih hn.2
      simp only [mapkeys, List.map_cons, List.nodup_cons] at hk this ⊢
      exact ⟨hk, this⟩

/-- A key that is absent reads as the `nil` slice. -/
theorem mapaccess_of_not_mem (m : FieldMap) (k : String) (h : k ∉ mapkeys m) :
    mapaccess m k = [] := by
  induction m with
  | nil => rfl
  | cons p m ih =>
    obtain ⟨k0, v0⟩ := p
    have h1 : k0 ≠ k := fun e => h (by simp [mapkeys, e])
    have h2 : k ∉ mapkeys m := fun e => h (by simp only [mapkeys, List.map_cons, List.mem_cons]; exact Or.inr e)
    simp [mapaccess, h1, ih h2]

/-- A value found under a key makes it a key. -/
theorem mem_mapkeys_of_mem_mapaccess (m : FieldMap) (k x : String)
    (h : x ∈ mapaccess m k) : k ∈ mapkeys m := by
  by_contra hk
  rw [mapaccess_of_not_mem m k hk] at h
  simp at h

theorem sliceContains_iff (e : EventFieldSelectorFilter) (field element : String) :
    e.sliceContains field element = true ↔ element ∈ mapaccess e.MatchFieldSelector field := by
  simp [EventFieldSelectorFilter.sliceContains, slices.Contains_iff]

/-- What the loop of `Filter` answers when it visits the fields of `order`:
some visited field is one of the three of the `switch` and the value of the
event for it is among the values stored under it. -/
theorem Filter_visiting_iff (e : EventFieldSelectorFilter) (order : List String)
    (event : Event) :
    e.Filter order event = true ↔
      (Reason ∈ order ∧ event.Reason ∈ mapaccess e.MatchFieldSelector Reason) ∨
      (InvolvedObjectKind ∈ order ∧
        event.InvolvedObject.Kind ∈ mapaccess e.MatchFieldSelector InvolvedObjectKind) ∨
      (involvedObjectNamespace ∈ order ∧
        event.InvolvedObject.Namespace ∈
          mapaccess e.MatchFieldSelector involvedObjectNamespace) := by
  induction order with
  | nil => simp [EventFieldSelectorFilter.Filter]
  | cons field rest ih =>
    unfold EventFieldSelectorFilter.Filter
    by_cases h1 : field = Reason
    · subst h1
      rw [if_pos rfl]
      by_cases hc : e.sliceContains Reason event.Reason = true
      · rw [if_pos hc]
        have := (sliceContains_iff e Reason event.Reason).1 hc
        simp [this]
      · rw [if_neg hc, ih]
        have hn : event.Reason ∉ mapaccess e.MatchFieldSelector Reason :=
          fun h => hc ((sliceContains_iff e Reason event.Reason).2 h)
        simp [hn, Reason_ne_Kind, Reason_ne_Kind.symm, Reason_ne_Namespace, Reason_ne_Namespace.symm, Kind_ne_Namespace, Kind_ne_Namespace.symm]
    · rw [if_neg h1]
      by_cases h2 : field = InvolvedObjectKind
      · subst h2
        rw [if_pos rfl]
        by_cases hc : e.sliceContains InvolvedObjectKind event.InvolvedObject.Kind = true
        · rw [if_pos hc]
          have := (sliceContains_iff e _ _).1 hc
          simp [this]
        · rw [if_neg hc, ih]
          have hn : event.InvolvedObject.Kind ∉
              mapaccess e.MatchFieldSelector InvolvedObjectKind :=
            fun h => hc ((sliceContains_iff e _ _).2 h)
          simp [hn, Reason_ne_Kind, Reason_ne_Kind.symm, Reason_ne_Namespace, Reason_ne_Namespace.symm, Kind_ne_Namespace, Kind_ne_Namespace.symm]
      · rw [if_neg h2]
        by_cases h3 : field = involvedObjectNamespace
        · subst h3
          rw [if_pos rfl]
          by_cases hc :
              e.sliceContains involvedObjectNamespace event.InvolvedObject.Namespace = true
          · rw [if_pos hc]
            have := (sliceContains_iff e _ _).1 hc
            simp [this]
          · rw [if_neg hc, ih]
            have hn : event.InvolvedObject.Namespace ∉
                mapaccess e.MatchFieldSelector involvedObjectNamespace :=
              fun h => hc ((sliceContains_iff e _ _).2 h)
            simp [hn, Reason_ne_Kind, Reason_ne_Kind.symm, Reason_ne_Namespace, Reason_ne_Namespace.symm, Kind_ne_Namespace, Kind_ne_Namespace.symm]
        · rw [if_neg h3, ih]
          have e1 : ¬ Reason = field := fun h => h1 h.symm
          have e2 : ¬ InvolvedObjectKind = field := fun h => h2 h.symm
          have e3 : ¬ involvedObjectNamespace = field := fun h => h3 h.symm
          simp [e1, e2, e3]

/-- The answer of `Filter` for a visiting order of the keys: membership in the
order is membership in the key list, and a value found under a field makes the
field a key. -/
theorem Filter_iff (e : EventFieldSelectorFilter) (order : List String)
    (horder : e.RangeOrder order) (event : Event) :
    e.Filter order event = true ↔
      event.Reason ∈ mapaccess e.MatchFieldSelector Reason ∨
      event.InvolvedObject.Kind ∈ mapaccess e.MatchFieldSelector InvolvedObjectKind ∨
      event.InvolvedObject.Namespace ∈
        mapaccess e.MatchFieldSelector involvedObjectNamespace := by
  rw [Filter_visiting_iff]
  have hm : ∀ k x, x ∈ mapaccess e.MatchFieldSelector k → k ∈ order := fun k x hx =>
    (List.Perm.mem_iff horder).2 (mem_mapkeys_of_mem_mapaccess _ k x hx)
  constructor
  · rintro (⟨_, h⟩ | ⟨_, h⟩ | ⟨_, h⟩)
    · exact Or.inl h
    · exact Or.inr (Or.inl h)
    · exact Or.inr (Or.inr h)
  · rintro (h | h | h)
    · exact Or.inl ⟨hm _ _ h, h⟩
    · exact Or.inr (Or.inl ⟨hm _ _ h, h⟩)
    · exact Or.inr (Or.inr ⟨hm _ _ h, h⟩)

/-- One turn of the constructor's loop on a selector that reads as a supported
field and its value portion. -/
theorem selectorLoop_cons_of_split (m : FieldMap) (s field match_ : String)
    (rest : List String) (hs : strings.Split s ':' = [field, match_])
    (hf : slices.Contains SupportField field = true) :
    selectorLoop m (s :: rest)
      = selectorLoop (mapassign m field (strings.Split match_ '|')) rest := by
  rw [selectorLoop, hs]
  simp only [hf, if_true]

/-- A loop that ends well has read its first selector as a supported field and
a value portion, and went on with the map updated. -/
theorem selectorLoop_cons_ok (m m' : FieldMap) (s : String) (rest : List String)
    (h : selectorLoop m (s :: rest) = .ok m') :
    ∃ field match_, strings.Split s ':' = [field, match_] ∧
      slices.Contains SupportField field = true ∧
      selectorLoop (mapassign m field (strings.Split match_ '|')) rest = .ok m' := by
  rw [selectorLoop] at h
  split at h
  · rename_i field match_ hs
    by_cases hf : slices.Contains SupportField field = true
    · rw [if_pos hf] at h
      exact ⟨field, match_, hs, hf, h⟩
    · rw [if_neg hf] at h
      cases h
  · cases h

theorem selectorLoop_ok_iff (m : FieldMap) (specs : List String) :
    (∃ m', selectorLoop m specs = .ok m') ↔
      ∀ s ∈ specs, ∃ field match_, strings.Split s ':' = [field, match_] ∧
        slices.Contains SupportField field = true := by
  induction specs generalizing m with
  | nil => simp [selectorLoop]
  | cons s rest ih =>
    constructor
    · rintro ⟨m', h⟩
      obtain ⟨field, match_, hs, hf, hrest⟩ := selectorLoop_cons_ok m m' s rest h
      intro t ht
      rcases List.mem_cons.1 ht with rfl | ht
      · exact ⟨field, match_, hs, hf⟩
      · exact (ih _).1 ⟨m', hrest⟩ t ht
    · intro h
      obtain ⟨field, match_, hs, hf⟩ := h s (by simp)
      rw [selectorLoop_cons_of_split m s field match_ rest hs hf]
      exact (ih _).2 (fun t ht => h t (by simp [ht]))

theorem selectorLoop_append (m m' : FieldMap) (a b : List String) :
    selectorLoop m (a ++ b) = .ok m' ↔
      ∃ m1, selectorLoop m a = .ok m1 ∧ selectorLoop m1 b = .ok m' := by
  induction a generalizing m with
  | nil => simp [selectorLoop]
  | cons s rest ih =>
    constructor
    · intro h
      rw [List.cons_append] at h
      obtain ⟨field, match_, hs, hf, hrest⟩ := selectorLoop_cons_ok m m' s _ h
      rw [selectorLoop_cons_of_split m s field match_ rest hs hf]
      exact (ih _).1 hrest
    · rintro ⟨m1, h1, h2⟩
      obtain ⟨field, match_, hs, hf, hrest⟩ := selectorLoop_cons_ok m m1 s _ h1
      rw [List.cons_append, selectorLoop_cons_of_split m s field match_ _ hs hf]
      exact (ih _).2 ⟨m1, hrest, h2⟩

/-- The keys after the loop: those before it and the fields the selectors name. -/
theorem mem_mapkeys_selectorLoop (m m' : FieldMap) (specs : List String)
    (h : selectorLoop m specs = .ok m') (k : String) :
    k ∈ mapkeys m' ↔
      k ∈ mapkeys m ∨ ∃ s ∈ specs, ∃ match_, strings.Split s ':' = [k, match_] := by
  induction specs generalizing m with
  | nil =>
    simp only [selectorLoop, Except.ok.injEq] at h
    subst h
    simp
  | cons s rest ih =>
    obtain ⟨field, match_, hs, hf, hrest⟩ := selectorLoop_cons_ok m m' s rest h
    rw [ih _ hrest, mem_mapkeys_mapassign]
    constructor
    · rintro ((rfl | hk) | ⟨t, ht, mt, hsplit⟩)
      · exact Or.inr ⟨s, by simp, match_, hs⟩
      · exact Or.inl hk
      · exact Or.inr ⟨t, by simp [ht], mt, hsplit⟩
    · rintro (hk | ⟨t, ht, mt, hsplit⟩)
      · exact Or.inl (Or.inr hk)
      · rcases List.mem_cons.1 ht with rfl | ht
        · rw [hs] at hsplit
          simp only [List.cons.injEq, and_true] at hsplit
          exact Or.inl (Or.inl hsplit.1.symm)
        · exact Or.inr ⟨t, ht, mt, hsplit⟩

/-- The loop leaves alone the entry of a field no selector names. -/
theorem mapaccess_selectorLoop_of_unnamed (m m' : FieldMap) (specs : List String)
    (h : selectorLoop m specs = .ok m') (k : String)
    (hk : ∀ s ∈ specs, ∀ match_, strings.Split s ':' ≠ [k, match_]) :
    mapaccess m' k = mapaccess m k := by
  induction specs generalizing m with
  | nil =>
    simp only [selectorLoop, Except.ok.injEq] at h
    subst h
    rfl
  | cons s rest ih =>
    obtain ⟨field, match_, hs, hf, hrest⟩ := selectorLoop_cons_ok m m' s rest h
    rw [ih _ hrest (fun t ht => hk t (by simp [ht])), mapaccess_mapassign]
    have hne : ¬ k = field := by
      intro e
      subst e
      exact hk s (by simp) match_ hs
    rw [if_neg hne]

theorem nodup_mapkeys_selectorLoop (m m' : FieldMap) (specs : List String)
    (h : selectorLoop m specs = .ok m') (hm : (mapkeys m).Nodup) : (mapkeys m').Nodup := by
  induction specs generalizing m with
  | nil =>
    simp only [selectorLoop, Except.ok.injEq] at h
    subst h
    exact hm
  | cons s rest ih =>
    obtain ⟨field, match_, hs, hf, hrest⟩ := selectorLoop_cons_ok m m' s rest h
    exact ih _ hrest (nodup_mapkeys_mapassign m _ _ hm)

theorem New_eq_ok_iff (specs : List String) (e : EventFieldSelectorFilter) :
    NewEventFieldSelectorFilter specs = .ok e ↔
      selectorLoop [] specs = .ok e.MatchFieldSelector := by
  unfold NewEventFieldSelectorFilter
  cases h : selectorLoop [] specs with
  | ok m =>
    constructor
    · intro h'
      simp only [Except.ok.injEq] at h'
      rw [← h']
    · intro h'
      simp only [Except.ok.injEq] at h'
      cases e
      simp only [Except.ok.injEq, EventFieldSelectorFilter.mk.injEq]
      exact h'
  | error f => simp

/-- The answer of `Filter`, field by field: some field of the `switch` has the
value of the event among the values stored under it. -/
theorem Filter_iff_exists (e : EventFieldSelectorFilter) (order : List String)
    (horder : e.RangeOrder order) (event : Event) :
    e.Filter order event = true ↔
      ∃ f, (f = Reason ∨ f = InvolvedObjectKind ∨ f = involvedObjectNamespace) ∧
        event.fieldValue f ∈ mapaccess e.MatchFieldSelector f := by
  rw [Filter_iff e order horder event]
  constructor
  · rintro (h | h | h)
    · exact ⟨Reason, Or.inl rfl, by simpa [Event.fieldValue] using h⟩
    · exact ⟨InvolvedObjectKind, Or.inr (Or.inl rfl), by
        simpa [Event.fieldValue, Reason_ne_Kind.symm] using h⟩
    · exact ⟨involvedObjectNamespace, Or.inr (Or.inr rfl), by
        simpa [Event.fieldValue, Reason_ne_Namespace.symm, Kind_ne_Namespace.symm] using h⟩
  · rintro ⟨f, (rfl | rfl | rfl), h⟩
    · exact Or.inl (by simpa [Event.fieldValue] using h)
    · exact Or.inr (Or.inl (by simpa [Event.fieldValue, Reason_ne_Kind.symm] using h))
    · exact Or.inr (Or.inr (by
        simpa [Event.fieldValue, Reason_ne_Namespace.symm, Kind_ne_Namespace.symm] using h))

/-- The selector `f:m` with a supported `f` and no `:` in `m` reads as the
field `f` and the value portion `m`. -/
theorem Split_selector (f m : String)
    (hf : f = Reason ∨ f = InvolvedObjectKind ∨ f = involvedObjectNamespace)
    (hm : ':' ∉ m.data) : strings.Split (f ++ ":" ++ m) ':' = [f, m] :=
  (strings.Split_eq_pair_iff _ f m).2 ⟨rfl, colon_not_mem_field f hf, hm⟩

end filters

namespace filters

/-- The keys of a constructed filter are fields of the `switch` of `Filter`. -/
theorem keys_supported_of_New (specs : List String) (e : EventFieldSelectorFilter)
    (hok : NewEventFieldSelectorFilter specs = .ok e) (k : String)
    (hk : k ∈ mapkeys e.MatchFieldSelector) :
    k = Reason ∨ k = InvolvedObjectKind ∨ k = involvedObjectNamespace := by
  have hloop := (New_eq_ok_iff specs e).1 hok
  rcases (mem_mapkeys_selectorLoop [] _ specs hloop k).1 hk with h | ⟨s, hs, match_, hsplit⟩
  · simp [mapkeys] at h
  · obtain ⟨field, match', hsplit', hf⟩ :=
      (selectorLoop_ok_iff [] specs).1 ⟨_, hloop⟩ s hs
    rw [hsplit] at hsplit'
    simp only [List.cons.injEq, and_true] at hsplit'
    rw [hsplit'.1]
    exact (mem_SupportField field).1 hf

/-- A selector with two `:` or more ends the constructor on its format error. -/
theorem selectorLoop_format_error (m : FieldMap) (s : String) (rest : List String)
    (h : 2 ≤ s.data.count ':') : selectorLoop m (s :: rest) = .error (.selectorFormat s) := by
  rw [selectorLoop]
  split
  · rename_i field match_ hs
    have hl := strings.length_Split s ':'
    rw [hs] at hl
    simp at hl
    omega
  · rfl

end filters

/-! ## The properties of the specification -/

namespace filters

/-- The loop of the type filter answers `true` exactly when some allowed type
folds to the type of the event. -/
theorem typeLoop_iff (SimpleFold : Nat → Nat) (event : Event) (L : List String) :
    typeLoop SimpleFold event L = true ↔
      ∃ a ∈ L, strings.EqualFold SimpleFold event.Type_ a = true := by
  induction L with
  | nil => simp [typeLoop]
  | cons a rest ih =>
    unfold typeLoop
    by_cases h : strings.EqualFold SimpleFold event.Type_ a = true
    · simp [h]
    · simp [h, ih]

/-- C1. For every allow-list `L`, the empty one included, and every event `E`,
the type filter built by `NewEventTypeFilter L` accepts `E` if and only if the
type of `E` is equal, ignoring letter case, to at least one element of `L`:
for every folding table that keeps the contract of `unicode.SimpleFold`, the
filter accepts exactly when some element of `L` has as many runes as the type
and, place by place, runes equivalent under case folding; when the type and
the elements of `L` are ASCII text, whatever the table, exactly when some
element of `L` has the lower-case form of the type; in every case exactly when
`strings.EqualFold` holds for some element.  With the empty allow-list every
event is rejected.  With the allow-list `["Warning"]` the type "warning" is
accepted and "Normal" is not. -/
theorem type_filter_accepts_iff (SimpleFold : Nat → Nat) (L : List String) (E : Event) :
    (∀ equiv : Nat → Nat → Prop, strings.SimpleFoldContract equiv SimpleFold →
      ((NewEventTypeFilter L).Filter SimpleFold E = true ↔
        ∃ a ∈ L, strings.EqualIgnoringCase equiv E.Type_ a)) ∧
    ((∀ c ∈ E.Type_.data, c.toNat < 0x80) → (∀ a ∈ L, ∀ c ∈ a.data, c.toNat < 0x80) →
      ((NewEventTypeFilter L).Filter SimpleFold E = true ↔
        ∃ a ∈ L, E.Type_.data.map (fun c => strings.asciiLower c.toNat)
          = a.data.map (fun c => strings.asciiLower c.toNat))) ∧
    ((NewEventTypeFilter L).Filter SimpleFold E = true ↔
        ∃ a ∈ L, strings.EqualFold SimpleFold E.Type_ a = true) ∧
    (NewEventTypeFilter []).Filter SimpleFold E = false ∧
    (NewEventTypeFilter ["Warning"]).Filter SimpleFold
        { E with Type_ := "warning" } = true ∧
    (NewEventTypeFilter ["Warning"]).Filter SimpleFold
        { E with Type_ := "Normal" } = false := by
  have hloop := typeLoop_iff SimpleFold E L
  refine ⟨?_, ?_, hloop, rfl, rfl, rfl⟩
  · intro equiv hfold
    unfold EventTypeFilter.Filter NewEventTypeFilter
    rw [hloop]
    constructor
    · rintro ⟨a, ha, h⟩
      exact ⟨a, ha, (strings.EqualFold_iff equiv SimpleFold hfold E.Type_ a).1 h⟩
    · rintro ⟨a, ha, h⟩
      exact ⟨a, ha, (strings.EqualFold_iff equiv SimpleFold hfold E.Type_ a).2 h⟩
  · intro hE hL
    unfold EventTypeFilter.Filter NewEventTypeFilter
    rw [hloop]
    constructor
    · rintro ⟨a, ha, h⟩
      exact ⟨a, ha, (strings.EqualFold_ascii_iff SimpleFold E.Type_ a hE (hL a ha)).1 h⟩
    · rintro ⟨a, ha, h⟩
      exact ⟨a, ha, (strings.EqualFold_ascii_iff SimpleFold E.Type_ a hE (hL a ha)).2 h⟩

/-- With the sample folding table, which keeps the contract: the allow-list
["Warning", "Kelvin"] accepts the types "WARNING" and "kelvin" written with the
Kelvin sign U+212A for its first letter, and rejects "Normal"; the allow-list
["É"] accepts "é" and rejects "e". -/
theorem type_filter_accepts_iff_witness :
    strings.SimpleFoldContract strings.sampleEquiv strings.sampleFold ∧
    ((NewEventTypeFilter ["Warning", "Kelvin"]).Filter strings.sampleFold
        ⟨"\u212aelvin", "Failed", ⟨"Pod", "default"⟩⟩ = true ↔
      ∃ a ∈ ["Warning", "Kelvin"],
        strings.EqualIgnoringCase strings.sampleEquiv "\u212aelvin" a) ∧
    (∃ a ∈ ["Warning", "Kelvin"],
        strings.EqualIgnoringCase strings.sampleEquiv "\u212aelvin" a) ∧
    (∀ c ∈ "WARNING".data, c.toNat < 0x80) ∧
    (∀ a ∈ ["Warning", "Kelvin"], ∀ c ∈ a.data, c.toNat < 0x80) ∧
    ((NewEventTypeFilter ["Warning", "Kelvin"]).Filter strings.sampleFold
        ⟨"WARNING", "Failed", ⟨"Pod", "default"⟩⟩ = true ↔
      ∃ a ∈ ["Warning", "Kelvin"],
        "WARNING".data.map (fun c => strings.asciiLower c.toNat)
          = a.data.map (fun c => strings.asciiLower c.toNat)) ∧
    (NewEventTypeFilter ["Warning", "Kelvin"]).Filter strings.sampleFold
        ⟨"WARNING", "Failed", ⟨"Pod", "default"⟩⟩ = true ∧
    (NewEventTypeFilter ["Warning", "Kelvin"]).Filter strings.sampleFold
        ⟨"\u212aelvin", "Failed", ⟨"Pod", "default"⟩⟩ = true ∧
    (NewEventTypeFilter ["Warning", "Kelvin"]).Filter strings.sampleFold
        ⟨"Normal", "Failed", ⟨"Pod", "default"⟩⟩ = false ∧
    (NewEventTypeFilter ["Warning", "Kelvin"]).Filter strings.sampleFold
        ⟨"Warnin", "Failed", ⟨"Pod", "default"⟩⟩ = false ∧
    (NewEventTypeFilter ["É"]).Filter strings.sampleFold
        ⟨"é", "Failed", ⟨"Pod", "default"⟩⟩ = true ∧
    (NewEventTypeFilter ["É"]).Filter strings.sampleFold
        ⟨"e", "Failed", ⟨"Pod", "default"⟩⟩ = false :=
  ⟨strings.sampleFold_contract,
   (type_filter_accepts_iff strings.sampleFold ["Warning", "Kelvin"]
      ⟨"\u212aelvin", "Failed", ⟨"Pod", "default"⟩⟩).1 strings.sampleEquiv
      strings.sampleFold_contract,
   ((type_filter_accepts_iff strings.sampleFold ["Warning", "Kelvin"]
      ⟨"\u212aelvin", "Failed", ⟨"Pod", "default"⟩⟩).1 strings.sampleEquiv
      strings.sampleFold_contract).1 (by decide),
   by decide, by decide,
   (type_filter_accepts_iff strings.sampleFold ["Warning", "Kelvin"]
      ⟨"WARNING", "Failed", ⟨"Pod", "default"⟩⟩).2.1 (by decide) (by decide),
   by decide, by decide, by decide, by decide, by decide, by decide⟩

/-- C2. For every field-selector mapping and every event, whatever the order in
which the keys are visited, `EventFieldSelectorFilter.Filter` answers `true` if
and only if one of the fields reason, involvedObject.kind,
involvedObject.namespace is a key of the mapping and the corresponding value of
the event (its reason, the kind or the namespace of its involved object) is a
member of the values stored under that key; with the empty mapping the answer
is `false`. -/
theorem field_filter_accepts_iff (e : EventFieldSelectorFilter) (order : List String)
    (horder : e.RangeOrder order) (E : Event) :
    (e.Filter order E = true ↔
      (Reason ∈ mapkeys e.MatchFieldSelector ∧
        E.Reason ∈ mapaccess e.MatchFieldSelector Reason) ∨
      (InvolvedObjectKind ∈ mapkeys e.MatchFieldSelector ∧
        E.InvolvedObject.Kind ∈ mapaccess e.MatchFieldSelector InvolvedObjectKind) ∨
      (involvedObjectNamespace ∈ mapkeys e.MatchFieldSelector ∧
        E.InvolvedObject.Namespace ∈
          mapaccess e.MatchFieldSelector involvedObjectNamespace)) ∧
    (e.MatchFieldSelector = [] → e.Filter order E = false) := by
  have hmem : ∀ k, k ∈ order ↔ k ∈ mapkeys e.MatchFieldSelector :=
    fun k => List.Perm.mem_iff horder
  constructor
  · rw [Filter_visiting_iff, hmem, hmem, hmem]
  · intro hempty
    have hnot : ¬ e.Filter order E = true := by
      rw [Filter_visiting_iff, hmem, hmem, hmem, hempty]
      simp [mapkeys]
    simpa using hnot

/-- The mapping with the entry reason ↦ [Failed, Killed], visited in its only
order, accepts an event exactly when one of the three disjuncts of C2 holds,
and the empty mapping rejects the event. -/
theorem field_filter_accepts_iff_witness :
    (EventFieldSelectorFilter.mk [("reason", ["Failed", "Killed"])]).RangeOrder ["reason"] ∧
    ((EventFieldSelectorFilter.mk [("reason", ["Failed", "Killed"])]).Filter ["reason"]
        ⟨"Warning", "Killed", ⟨"Pod", "default"⟩⟩ = true ↔
      (Reason ∈ mapkeys [("reason", ["Failed", "Killed"])] ∧
        "Killed" ∈ mapaccess [("reason", ["Failed", "Killed"])] Reason) ∨
      (InvolvedObjectKind ∈ mapkeys [("reason", ["Failed", "Killed"])] ∧
        "Pod" ∈ mapaccess [("reason", ["Failed", "Killed"])] InvolvedObjectKind) ∨
      (involvedObjectNamespace ∈ mapkeys [("reason", ["Failed", "Killed"])] ∧
        "default" ∈ mapaccess [("reason", ["Failed", "Killed"])] involvedObjectNamespace)) ∧
    (EventFieldSelectorFilter.mk []).RangeOrder [] ∧
    (EventFieldSelectorFilter.mk []).Filter [] ⟨"Warning", "Killed", ⟨"Pod", "default"⟩⟩
      = false :=
  ⟨List.Perm.refl _,
   (field_filter_accepts_iff ⟨[("reason", ["Failed", "Killed"])]⟩ ["reason"]
      (List.Perm.refl _) ⟨"Warning", "Killed", ⟨"Pod", "default"⟩⟩).1,
   List.Perm.refl _,
   (field_filter_accepts_iff ⟨[]⟩ [] (List.Perm.refl _)
      ⟨"Warning", "Killed", ⟨"Pod", "default"⟩⟩).2 rfl⟩

/-- C3. For every list of selector specifications, `NewEventFieldSelectorFilter`
succeeds if and only if every specification of the list splits on `:` into
exactly two parts, that is, holds exactly one `:`, and its first part is one of
reason, involvedObject.kind, involvedObject.namespace.  One malformed
specification ("reasonFailed") or one unsupported field ("status:Failed")
anywhere in the list makes the construction end fatally: the entry is not
skipped. -/
theorem constructor_succeeds_iff (specs : List String) :
    ((∃ e, NewEventFieldSelectorFilter specs = .ok e) ↔
      ∀ s ∈ specs, (strings.Split s ':').length = 2 ∧ s.data.count ':' = 1 ∧
        ∃ field match_, strings.Split s ':' = [field, match_] ∧
          (field = Reason ∨ field = InvolvedObjectKind ∨ field = involvedObjectNamespace)) ∧
    (∀ before after, ∃ fatal,
      NewEventFieldSelectorFilter (before ++ "reasonFailed" :: after) = .error fatal) ∧
    (∀ before after, ∃ fatal,
      NewEventFieldSelectorFilter (before ++ "status:Failed" :: after) = .error fatal) ∧
    NewEventFieldSelectorFilter ["reasonFailed"] = .error (.selectorFormat "reasonFailed") ∧
    NewEventFieldSelectorFilter ["status:Failed"] = .error (.unsupportedField "status") := by
  have main : ∀ l : List String, (∃ e, NewEventFieldSelectorFilter l = .ok e) ↔
      ∀ s ∈ l, (strings.Split s ':').length = 2 ∧ s.data.count ':' = 1 ∧
        ∃ field match_, strings.Split s ':' = [field, match_] ∧
          (field = Reason ∨ field = InvolvedObjectKind ∨ field = involvedObjectNamespace) := by
    intro l
    have hloop := selectorLoop_ok_iff [] l
    constructor
    · rintro ⟨e, he⟩
      have h := hloop.1 ⟨e.MatchFieldSelector, (New_eq_ok_iff l e).1 he⟩
      intro s hs
      obtain ⟨field, match_, hsplit, hf⟩ := h s hs
      have hlen : (strings.Split s ':').length = 2 := by rw [hsplit]; rfl
      have hcount : s.data.count ':' = 1 := by
        have := strings.length_Split s ':'
        omega
      exact ⟨hlen, hcount, field, match_, hsplit, (mem_SupportField field).1 hf⟩
    · intro h
      obtain ⟨m, hm⟩ := hloop.2 (fun s hs => by
        obtain ⟨_, _, field, match_, hsplit, hf⟩ := h s hs
        exact ⟨field, match_, hsplit, (mem_SupportField field).2 hf⟩)
      exact ⟨⟨m⟩, (New_eq_ok_iff l ⟨m⟩).2 hm⟩
  have fails : ∀ (bad : String) (before after : List String),
      ¬ ((strings.Split bad ':').length = 2 ∧ bad.data.count ':' = 1 ∧
        ∃ field match_, strings.Split bad ':' = [field, match_] ∧
          (field = Reason ∨ field = InvolvedObjectKind ∨ field = involvedObjectNamespace)) →
      ∃ fatal, NewEventFieldSelectorFilter (before ++ bad :: after) = .error fatal := by
    intro bad before after hbad
    cases hr : NewEventFieldSelectorFilter (before ++ bad :: after) with
    | error fatal => exact ⟨fatal, rfl⟩
    | ok e => exact absurd ((main _).1 ⟨e, hr⟩ bad (by simp)) hbad
  refine ⟨main specs, ?_, ?_, by decide, by decide⟩
  · intro before after
    refine fails "reasonFailed" before after ?_
    rintro ⟨hlen, _⟩
    revert hlen
    decide
  · intro before after
    refine fails "status:Failed" before after ?_
    rintro ⟨_, _, field, match_, hsplit, hf⟩
    have h2 : strings.Split "status:Failed" ':' = ["status", "Failed"] := by decide
    rw [h2] at hsplit
    simp only [List.cons.injEq, and_true] at hsplit
    rcases hf with hf | hf | hf <;> · rw [← hsplit.1] at hf; revert hf; decide

/-- C4. For every supported field `f` and every non-empty list of values
`v1 .. vn` holding neither `:` nor `|`, the constructor succeeds on the single
specification `f:v1|...|vn`, and the filter it builds accepts an event,
whatever the visiting order, if and only if the value of the event for `f` is
exactly equal (letter case included) to one of `v1 .. vn`. -/
theorem single_selector_accepts_iff (f : String) (vs : List String)
    (hf : f = Reason ∨ f = InvolvedObjectKind ∨ f = involvedObjectNamespace)
    (hne : vs ≠ []) (hv : ∀ v ∈ vs, ':' ∉ v.data ∧ '|' ∉ v.data) :
    ∃ e, NewEventFieldSelectorFilter [f ++ ":" ++ strings.Join vs "|"] = .ok e ∧
      ∀ order, e.RangeOrder order → ∀ E : Event,
        (e.Filter order E = true ↔ E.fieldValue f ∈ vs) := by
  have hbar : ("|" : String) = String.singleton '|' := rfl
  have hcolon : ':' ∉ (strings.Join vs "|").data := by
    rw [hbar]
    exact strings.not_mem_data_Join vs '|' ':' (by decide) (fun v hv' => (hv v hv').1)
  have hvals : strings.Split (strings.Join vs "|") '|' = vs := by
    rw [hbar]
    exact strings.Split_Join vs '|' hne (fun v hv' => (hv v hv').2)
  have hloop : selectorLoop [] [f ++ ":" ++ strings.Join vs "|"] = .ok [(f, vs)] := by
    rw [selectorLoop_cons_of_split [] _ f _ [] (Split_selector f _ hf hcolon)
      ((mem_SupportField f).2 hf), hvals]
    rfl
  refine ⟨⟨[(f, vs)]⟩, (New_eq_ok_iff _ _).2 hloop, ?_⟩
  intro order horder E
  rw [Filter_iff_exists _ order horder E]
  constructor
  · rintro ⟨g, _, hg⟩
    by_cases hfg : f = g
    · subst hfg
      simpa [mapaccess] using hg
    · simp [mapaccess, hfg] at hg
  · intro h
    exact ⟨f, hf, by simpa [mapaccess] using h⟩

/-- The filter built from "reason:Failed|Killed" accepts the reasons "Failed"
and "Killed" and rejects "Created"; the filter built from
"involvedObject.kind:Pod" accepts the kind "Pod" and rejects "pod". -/
theorem single_selector_accepts_iff_witness :
    (∃ e, NewEventFieldSelectorFilter ["reason:Failed|Killed"] = .ok e ∧
      ∀ order, e.RangeOrder order → ∀ E : Event,
        (e.Filter order E = true ↔ E.fieldValue "reason" ∈ ["Failed", "Killed"])) ∧
    (∃ e, NewEventFieldSelectorFilter ["involvedObject.kind:Pod"] = .ok e ∧
      ∀ order, e.RangeOrder order → ∀ E : Event,
        (e.Filter order E = true ↔ E.fieldValue "involvedObject.kind" ∈ ["Pod"])) ∧
    NewEventFieldSelectorFilter ["reason:Failed|Killed"]
      = .ok ⟨[("reason", ["Failed", "Killed"])]⟩ ∧
    (EventFieldSelectorFilter.mk [("reason", ["Failed", "Killed"])]).Filter ["reason"]
      ⟨"Warning", "Failed", ⟨"Pod", "default"⟩⟩ = true ∧
    (EventFieldSelectorFilter.mk [("reason", ["Failed", "Killed"])]).Filter ["reason"]
      ⟨"Warning", "Killed", ⟨"Pod", "default"⟩⟩ = true ∧
    (EventFieldSelectorFilter.mk [("reason", ["Failed", "Killed"])]).Filter ["reason"]
      ⟨"Warning", "Created", ⟨"Pod", "default"⟩⟩ = false ∧
    NewEventFieldSelectorFilter ["involvedObject.kind:Pod"]
      = .ok ⟨[("involvedObject.kind", ["Pod"])]⟩ ∧
    (EventFieldSelectorFilter.mk [("involvedObject.kind", ["Pod"])]).Filter
      ["involvedObject.kind"] ⟨"Warning", "Created", ⟨"Pod", "default"⟩⟩ = true ∧
    (EventFieldSelectorFilter.mk [("involvedObject.kind", ["Pod"])]).Filter
      ["involvedObject.kind"] ⟨"Warning", "Created", ⟨"pod", "default"⟩⟩ = false :=
  ⟨single_selector_accepts_iff Reason ["Failed", "Killed"] (Or.inl rfl) (by simp) (by decide),
   single_selector_accepts_iff InvolvedObjectKind ["Pod"] (Or.inr (Or.inl rfl)) (by simp)
     (by decide),
   by decide, by decide, by decide, by decide, by decide, by decide, by decide⟩

/-- C5. For every two specifications that name two distinct supported fields
`f1` and `f2`, the constructor succeeds on the two, and the filter it builds
accepts an event, whatever the visiting order, if and only if the value of the
event for `f1` is among the values of the first specification or its value for
`f2` is among the values of the second. -/
theorem two_selectors_accept_iff (s1 s2 f1 f2 m1 m2 : String)
    (h1 : strings.Split s1 ':' = [f1, m1]) (h2 : strings.Split s2 ':' = [f2, m2])
    (hf1 : f1 = Reason ∨ f1 = InvolvedObjectKind ∨ f1 = involvedObjectNamespace)
    (hf2 : f2 = Reason ∨ f2 = InvolvedObjectKind ∨ f2 = involvedObjectNamespace)
    (hne : f1 ≠ f2) :
    ∃ e, NewEventFieldSelectorFilter [s1, s2] = .ok e ∧
      ∀ order, e.RangeOrder order → ∀ E : Event,
        (e.Filter order E = true ↔
          E.fieldValue f1 ∈ strings.Split m1 '|' ∨ E.fieldValue f2 ∈ strings.Split m2 '|') := by
  have hloop : selectorLoop [] [s1, s2]
      = .ok [(f1, strings.Split m1 '|'), (f2, strings.Split m2 '|')] := by
    rw [selectorLoop_cons_of_split [] s1 f1 m1 [s2] h1 ((mem_SupportField f1).2 hf1),
      selectorLoop_cons_of_split _ s2 f2 m2 [] h2 ((mem_SupportField f2).2 hf2)]
    simp [mapassign, selectorLoop, hne]
  refine ⟨⟨[(f1, strings.Split m1 '|'), (f2, strings.Split m2 '|')]⟩,
    (New_eq_ok_iff _ _).2 hloop, ?_⟩
  intro order horder E
  rw [Filter_iff_exists _ order horder E]
  constructor
  · rintro ⟨g, _, hg⟩
    by_cases hg1 : f1 = g
    · subst hg1
      exact Or.inl (by simpa [mapaccess] using hg)
    · by_cases hg2 : f2 = g
      · subst hg2
        exact Or.inr (by simpa [mapaccess, hne] using hg)
      · simp [mapaccess, hg1, hg2] at hg
  · rintro (h | h)
    · exact ⟨f1, hf1, by simpa [mapaccess] using h⟩
    · exact ⟨f2, hf2, by simpa [mapaccess, hne] using h⟩

/-- The filter built from "reason:Failed" and
"involvedObject.namespace:kube-system" accepts (Failed, default) and
(Created, kube-system) and rejects (Created, default), in both visiting
orders. -/
theorem two_selectors_accept_iff_witness :
    (∃ e, NewEventFieldSelectorFilter ["reason:Failed", "involvedObject.namespace:kube-system"]
        = .ok e ∧
      ∀ order, e.RangeOrder order → ∀ E : Event,
        (e.Filter order E = true ↔
          E.fieldValue "reason" ∈ strings.Split "Failed" '|' ∨
          E.fieldValue "involvedObject.namespace" ∈ strings.Split "kube-system" '|')) ∧
    NewEventFieldSelectorFilter ["reason:Failed", "involvedObject.namespace:kube-system"]
      = .ok ⟨[("reason", ["Failed"]), ("involvedObject.namespace", ["kube-system"])]⟩ ∧
    (∀ order ∈ [["reason", "involvedObject.namespace"], ["involvedObject.namespace", "reason"]],
      (EventFieldSelectorFilter.mk
          [("reason", ["Failed"]), ("involvedObject.namespace", ["kube-system"])]).Filter
        order ⟨"Warning", "Failed", ⟨"Pod", "default"⟩⟩ = true ∧
      (EventFieldSelectorFilter.mk
          [("reason", ["Failed"]), ("involvedObject.namespace", ["kube-system"])]).Filter
        order ⟨"Warning", "Created", ⟨"Pod", "kube-system"⟩⟩ = true ∧
      (EventFieldSelectorFilter.mk
          [("reason", ["Failed"]), ("involvedObject.namespace", ["kube-system"])]).Filter
        order ⟨"Warning", "Created", ⟨"Pod", "default"⟩⟩ = false) :=
  ⟨two_selectors_accept_iff "reason:Failed" "involvedObject.namespace:kube-system"
      "reason" "involvedObject.namespace" "Failed" "kube-system" (by decide) (by decide)
      (Or.inl rfl) (Or.inr (Or.inr rfl)) (by decide),
   by decide, by decide⟩

/-- C6. When the specification list holds several specifications for one field,
the mapping holds for that field exactly the value list of the last of them:
for a list `before ++ s :: after` on which the constructor succeeds, `s`
reading as field `f` with value portion `mt` and no specification of `after`
naming `f`, the values stored under `f` are the pieces of `mt` cut at `|`,
whatever `before` holds. -/
theorem repeated_field_last_wins (before after : List String) (s f mt : String)
    (e : EventFieldSelectorFilter)
    (hs : strings.Split s ':' = [f, mt])
    (hlast : ∀ t ∈ after, ∀ mt', strings.Split t ':' ≠ [f, mt'])
    (hok : NewEventFieldSelectorFilter (before ++ s :: after) = .ok e) :
    mapaccess e.MatchFieldSelector f = strings.Split mt '|' := by
  obtain ⟨m1, _, h2⟩ := (selectorLoop_append [] _ before (s :: after)).1
    ((New_eq_ok_iff _ e).1 hok)
  obtain ⟨field, match_, hs', _, hrest⟩ := selectorLoop_cons_ok m1 _ s after h2
  rw [hs] at hs'
  simp only [List.cons.injEq, and_true] at hs'
  obtain ⟨rfl, rfl⟩ := hs'
  rw [mapaccess_selectorLoop_of_unnamed _ _ after hrest f hlast, mapaccess_mapassign]
  simp

/-- The filter built from "reason:A" and "reason:B" stores under reason the
values of the second specification only; it accepts an event with reason "B"
and rejects an event with reason "A". -/
theorem repeated_field_last_wins_witness :
    strings.Split "reason:B" ':' = ["reason", "B"] ∧
    NewEventFieldSelectorFilter (["reason:A"] ++ "reason:B" :: [])
      = .ok ⟨[("reason", ["B"])]⟩ ∧
    mapaccess (EventFieldSelectorFilter.mk [("reason", ["B"])]).MatchFieldSelector "reason"
      = strings.Split "B" '|' ∧
    strings.Split "B" '|' = ["B"] ∧
    (EventFieldSelectorFilter.mk [("reason", ["B"])]).Filter ["reason"]
      ⟨"Warning", "B", ⟨"Pod", "default"⟩⟩ = true ∧
    (EventFieldSelectorFilter.mk [("reason", ["B"])]).Filter ["reason"]
      ⟨"Warning", "A", ⟨"Pod", "default"⟩⟩ = false :=
  ⟨by decide, by decide,
   repeated_field_last_wins ["reason:A"] [] "reason:B" "reason" "B"
     ⟨[("reason", ["B"])]⟩ (by decide) (by simp) (by decide),
   by decide, by decide, by decide⟩

/-- C7, as the specification words it, fails: the specification "reason:a:b"
holds a `:`, the text before its first `:` is the supported field reason, and
the constructor does not succeed on it: it ends on the format error. -/
theorem first_colon_split_counterexample :
    "reason:a:b" = Reason ++ ":" ++ "a:b" ∧ ':' ∉ Reason.data ∧
    strings.Split "reason:a:b" ':' = ["reason", "a", "b"] ∧
    NewEventFieldSelectorFilter ["reason:a:b"] = .error (.selectorFormat "reason:a:b") := by
  decide

/-- C7, amended. A selector specification is cut at every `:` and has to give
exactly two parts: for a supported field `f`, the specification `f:mt` with no
`:` in `mt` is accepted, `f` being the field and the pieces of `mt` cut at `|`
the value list; with a `:` in `mt` (as in "reason:a:b") the constructor ends
on the format error. -/
theorem selector_cut_needs_single_colon (f mt : String)
    (hf : f = Reason ∨ f = InvolvedObjectKind ∨ f = involvedObjectNamespace) :
    (':' ∉ mt.data →
      NewEventFieldSelectorFilter [f ++ ":" ++ mt] = .ok ⟨[(f, strings.Split mt '|')]⟩) ∧
    (':' ∈ mt.data →
      NewEventFieldSelectorFilter [f ++ ":" ++ mt]
        = .error (.selectorFormat (f ++ ":" ++ mt))) := by
  constructor
  · intro hmt
    refine (New_eq_ok_iff _ _).2 ?_
    rw [selectorLoop_cons_of_split [] _ f mt [] (Split_selector f mt hf hmt)
      ((mem_SupportField f).2 hf)]
    rfl
  · intro hmt
    have hcount : 2 ≤ (f ++ ":" ++ mt).data.count ':' := by
      have h1 : (f ++ ":" ++ mt).data = f.data ++ ':' :: mt.data := by
        simp [String.data_append]
      have h2 : 0 < mt.data.count ':' := List.count_pos_iff.2 hmt
      rw [h1, List.count_append, List.count_cons_self]
      omega
    unfold NewEventFieldSelectorFilter
    rw [selectorLoop_format_error [] _ [] hcount]

/-- The specification "reason:Failed" is accepted with the value list
[Failed]; the specification "reason:a:b" ends the constructor. -/
theorem selector_cut_needs_single_colon_witness :
    (':' ∉ "Failed".data →
      NewEventFieldSelectorFilter [Reason ++ ":" ++ "Failed"]
        = .ok ⟨[(Reason, strings.Split "Failed" '|')]⟩) ∧
    (':' ∈ "a:b".data →
      NewEventFieldSelectorFilter [Reason ++ ":" ++ "a:b"]
        = .error (.selectorFormat (Reason ++ ":" ++ "a:b"))) ∧
    ':' ∉ "Failed".data ∧ ':' ∈ "a:b".data ∧
    strings.Split "Failed" '|' = ["Failed"] :=
  ⟨(selector_cut_needs_single_colon Reason "Failed" (Or.inl rfl)).1,
   (selector_cut_needs_single_colon Reason "a:b" (Or.inl rfl)).2,
   by decide, by decide, by decide⟩

/-- C8. The constructor succeeds on the empty specification list, the mapping
of the filter it builds is empty, and that filter rejects every event, whatever
fields the loop is made to visit. -/
theorem empty_selector_list_rejects_all (order : List String) (E : Event) :
    ∃ e, NewEventFieldSelectorFilter [] = .ok e ∧ e.MatchFieldSelector = [] ∧
      mapkeys e.MatchFieldSelector = [] ∧ e.Filter order E = false := by
  refine ⟨⟨[]⟩, rfl, rfl, rfl, ?_⟩
  have hnot : ¬ (EventFieldSelectorFilter.mk []).Filter order E = true := by
    rw [Filter_visiting_iff]
    simp [mapaccess]
  simpa using hnot

/-- C9. For every specification list on which the constructor succeeds, every
key of the mapping is one of reason, involvedObject.kind,
involvedObject.namespace, a member of `SupportField`; hence every field the
loop of `Filter` visits has a `case` of its `switch`: none is outside the
supported set and none is passed over. -/
theorem constructed_keys_supported (specs : List String) (e : EventFieldSelectorFilter)
    (hok : NewEventFieldSelectorFilter specs = .ok e) :
    (∀ k ∈ mapkeys e.MatchFieldSelector,
      slices.Contains SupportField k = true ∧
      (k = Reason ∨ k = InvolvedObjectKind ∨ k = involvedObjectNamespace)) ∧
    (∀ order, e.RangeOrder order → ∀ field ∈ order,
      field = Reason ∨ field = InvolvedObjectKind ∨ field = involvedObjectNamespace) := by
  have hkeys := keys_supported_of_New specs e hok
  refine ⟨fun k hk => ⟨(mem_SupportField k).2 (hkeys k hk), hkeys k hk⟩, ?_⟩
  intro order horder field hfield
  exact hkeys field ((List.Perm.mem_iff horder).1 hfield)

/-- The keys of the filter built from "reason:Failed" and
"involvedObject.kind:Pod" are supported fields. -/
theorem constructed_keys_supported_witness :
    NewEventFieldSelectorFilter ["reason:Failed", "involvedObject.kind:Pod"]
      = .ok ⟨[("reason", ["Failed"]), ("involvedObject.kind", ["Pod"])]⟩ ∧
    ((∀ k ∈ mapkeys [("reason", ["Failed"]), ("involvedObject.kind", ["Pod"])],
      slices.Contains SupportField k = true ∧
      (k = Reason ∨ k = InvolvedObjectKind ∨ k = involvedObjectNamespace)) ∧
    (∀ order, (EventFieldSelectorFilter.mk
        [("reason", ["Failed"]), ("involvedObject.kind", ["Pod"])]).RangeOrder order →
      ∀ field ∈ order,
        field = Reason ∨ field = InvolvedObjectKind ∨ field = involvedObjectNamespace)) :=
  ⟨by decide,
   constructed_keys_supported ["reason:Failed", "involvedObject.kind:Pod"]
     ⟨[("reason", ["Failed"]), ("involvedObject.kind", ["Pod"])]⟩ (by decide)⟩

/-- C10, as the specification words it, fails: the constructor succeeds on the
specification "reason:", the value list stored under reason is the one empty
string, the check of reason on an empty reason answers `true`, and the filter
accepts the event whose reason, kind and namespace are all empty. -/
theorem empty_field_rejected_counterexample :
    NewEventFieldSelectorFilter ["reason:"] = .ok ⟨[("reason", [""])]⟩ ∧
    (EventFieldSelectorFilter.mk [("reason", [""])]).RangeOrder ["reason"] ∧
    (EventFieldSelectorFilter.mk [("reason", [""])]).sliceContains Reason "" = true ∧
    (EventFieldSelectorFilter.mk [("reason", [""])]).Filter ["reason"]
      ⟨"Warning", "", ⟨"", ""⟩⟩ = true :=
  ⟨by decide, List.Perm.refl _, by decide, by decide⟩

/-- C10, amended. For every constructed field-selector filter an empty value
is checked like any other value: the check of a field on the empty string
answers `true` exactly when the empty string is among the values stored under
that field, and `false` otherwise, like a value that matches nothing; the event
whose reason, kind and namespace are all empty is accepted exactly when the
empty string is among the values of some configured field, and rejected
otherwise. -/
theorem empty_value_checked_like_any_other (specs : List String)
    (e : EventFieldSelectorFilter) (hok : NewEventFieldSelectorFilter specs = .ok e)
    (order : List String) (horder : e.RangeOrder order) (type_ : String) :
    (∀ f, e.sliceContains f "" = true ↔ "" ∈ mapaccess e.MatchFieldSelector f) ∧
    (e.Filter order ⟨type_, "", ⟨"", ""⟩⟩ = true ↔
      ∃ f ∈ mapkeys e.MatchFieldSelector, "" ∈ mapaccess e.MatchFieldSelector f) ∧
    ((∀ f ∈ mapkeys e.MatchFieldSelector, "" ∉ mapaccess e.MatchFieldSelector f) →
      e.Filter order ⟨type_, "", ⟨"", ""⟩⟩ = false) := by
  have hvalue : ∀ f, f = Reason ∨ f = InvolvedObjectKind ∨ f = involvedObjectNamespace →
      (Event.mk type_ "" ⟨"", ""⟩).fieldValue f = "" := by
    rintro f (rfl | rfl | rfl) <;> rfl
  have hiff : e.Filter order ⟨type_, "", ⟨"", ""⟩⟩ = true ↔
      ∃ f ∈ mapkeys e.MatchFieldSelector, "" ∈ mapaccess e.MatchFieldSelector f := by
    rw [Filter_iff_exists e order horder]
    constructor
    · rintro ⟨f, hf, h⟩
      rw [hvalue f hf] at h
      exact ⟨f, mem_mapkeys_of_mem_mapaccess _ f "" h, h⟩
    · rintro ⟨f, hk, h⟩
      have hf := keys_supported_of_New specs e hok f hk
      exact ⟨f, hf, by rw [hvalue f hf]; exact h⟩
  refine ⟨fun f => sliceContains_iff e f "", hiff, ?_⟩
  intro hnone
  have hnot : ¬ e.Filter order ⟨type_, "", ⟨"", ""⟩⟩ = true := by
    rw [hiff]
    rintro ⟨f, hk, h⟩
    exact hnone f hk h
  simpa using hnot

/-- The filter built from "reason:Failed" rejects the event with empty
fields: the empty string is not among its values; the filter built from
"reason:Failed|" accepts it: the value list is [Failed, ""]. -/
theorem empty_value_checked_like_any_other_witness :
    NewEventFieldSelectorFilter ["reason:Failed"] = .ok ⟨[("reason", ["Failed"])]⟩ ∧
    (EventFieldSelectorFilter.mk [("reason", ["Failed"])]).RangeOrder ["reason"] ∧
    (EventFieldSelectorFilter.mk [("reason", ["Failed"])]).Filter ["reason"]
      ⟨"Warning", "", ⟨"", ""⟩⟩ = false ∧
    NewEventFieldSelectorFilter ["reason:Failed|"] = .ok ⟨[("reason", ["Failed", ""])]⟩ ∧
    (EventFieldSelectorFilter.mk [("reason", ["Failed", ""])]).Filter ["reason"]
      ⟨"Warning", "", ⟨"", ""⟩⟩ = true :=
  ⟨by decide, List.Perm.refl _,
   (empty_value_checked_like_any_other ["reason:Failed"] ⟨[("reason", ["Failed"])]⟩
      (by decide) ["reason"] (List.Perm.refl _) "Warning").2.2 (by decide),
   by decide,
   (empty_value_checked_like_any_other ["reason:Failed|"] ⟨[("reason", ["Failed", ""])]⟩
      (by decide) ["reason"] (List.Perm.refl _) "Warning").2.1.2
      ⟨"reason", by decide, by decide⟩⟩

end filters

/-! ## Facts about removing an entry and about the pieces of a value portion -/

namespace strings

/-- No piece of `Split` holds the separator. -/
theorem not_mem_of_mem_Split (s : String) (sep : Char) :
    ∀ piece ∈ Split s sep, sep ∉ piece.data := by
  intro piece hp
  unfold Split at hp
  rcases List.mem_map.1 hp with ⟨runes, hr, rfl⟩
  exact not_mem_of_mem_splitRunes sep s.data runes hr

theorem Split_ne_nil (s : String) (sep : Char) : Split s sep ≠ [] := by
  unfold Split
  simpa using splitRunes_ne_nil sep s.data

/-- The pieces of `Split`, joined with the separator, are the text that was
cut. -/
theorem Join_Split (s : String) (sep : Char) :
    Join (Split s sep) (String.singleton sep) = s := by
  rw [String.ext_iff, data_Join]
  unfold Split
  rw [List.map_map]
  have hid : (String.data ∘ String.mk) = (id : List Char → List Char) := rfl
  rw [hid, List.map_id, intercalate_splitRunes]

end strings

namespace filters

theorem mapaccess_mapdelete (m : FieldMap) (k k' : String) :
    mapaccess (mapdelete m k) k' = if k' = k then [] else mapaccess m k' := by
  induction m with
  | nil => simp [mapdelete, mapaccess]
  | cons p m ih =>
    obtain ⟨k0, v0⟩ := p
    unfold mapdelete at ih ⊢
    by_cases h0 : k0 = k
    · subst h0
      rw [List.filter_cons_of_neg (by simp), ih]
      by_cases h : k' = k0
      · simp [h]
      · have h' : ¬ k0 = k' := fun e => h e.symm
        simp [mapaccess, h, h']
    · rw [List.filter_cons_of_pos (by simpa using h0)]
      by_cases h : k0 = k'
      · subst h
        simp [mapaccess, h0]
      · simp only [mapaccess, h, if_false]
        exact ih

theorem mem_mapkeys_mapdelete (m : FieldMap) (k k' : String) :
    k' ∈ mapkeys (mapdelete m k) ↔ k' ≠ k ∧ k' ∈ mapkeys m := by
  simp only [mapkeys, mapdelete, List.mem_map, List.mem_filter]
  constructor
  · rintro ⟨p, ⟨hp, hne⟩, rfl⟩
    exact ⟨by simpa using hne, p, hp, rfl⟩
  · rintro ⟨hne, p, hp, rfl⟩
    exact ⟨p, ⟨hp, by simpa using hne⟩, rfl⟩

/-- A map whose entries all hold the `nil` slice reads as `nil` everywhere. -/
theorem mapaccess_of_all_empty (m : FieldMap) (h : ∀ entry ∈ m, entry.2 = [])
    (k : String) : mapaccess m k = [] := by
  induction m with
  | nil => rfl
  | cons p m ih =>
    obtain ⟨k0, v0⟩ := p
    have h0 : v0 = [] := h (k0, v0) (by simp)
    have hrest := ih (fun entry he => h entry (by simp [he]))
    by_cases hk : k0 = k
    · simp [mapaccess, hk, h0]
    · simp [mapaccess, hk, hrest]

/-- The visiting order does not change the answer of `Filter`. -/
theorem Filter_order_irrelevant (e : EventFieldSelectorFilter) (order order' : List String)
    (horder : e.RangeOrder order) (horder' : e.RangeOrder order') (event : Event) :
    e.Filter order event = e.Filter order' event := by
  rw [Bool.eq_iff_iff, Filter_iff e order horder event, Filter_iff e order' horder' event]

/-- One more selector at the end of a list on which the loop ends well. -/
theorem selectorLoop_snoc (m m' : FieldMap) (specs : List String) (s field match_ : String)
    (h : selectorLoop m specs = .ok m') (hs : strings.Split s ':' = [field, match_])
    (hf : slices.Contains SupportField field = true) :
    selectorLoop m (specs ++ [s])
      = .ok (mapassign m' field (strings.Split match_ '|')) := by
  refine (selectorLoop_append m _ specs [s]).2 ⟨m', h, ?_⟩
  rw [selectorLoop_cons_of_split m' s field match_ [] hs hf]
  rfl

end filters

/-! ## The properties of the specification, continued -/

namespace filters

/-- C11. `EventFieldSelectorFilter.Filter` is a total function of the mapping
and the event: for every mapping and every event the answer is the same in
every order in which the keys of the mapping are visited, and it is the value
of an expression in which no order occurs. -/
theorem filter_independent_of_order (e : EventFieldSelectorFilter) (E : Event)
    (order order' : List String) (horder : e.RangeOrder order)
    (horder' : e.RangeOrder order') :
    e.Filter order E = e.Filter order' E ∧
    e.Filter order E =
      (e.sliceContains Reason E.Reason ||
        e.sliceContains InvolvedObjectKind E.InvolvedObject.Kind ||
        e.sliceContains involvedObjectNamespace E.InvolvedObject.Namespace) := by
  refine ⟨Filter_order_irrelevant e order order' horder horder' E, ?_⟩
  rw [Bool.eq_iff_iff, Filter_iff e order horder E]
  simp only [Bool.or_eq_true, sliceContains_iff]
  tauto

/-- The mapping with entries for reason and involvedObject.namespace answers
the same when reason is visited first and when the namespace is visited
first. -/
theorem filter_independent_of_order_witness :
    (EventFieldSelectorFilter.mk
        [("reason", ["Failed"]), ("involvedObject.namespace", ["kube-system"])]).RangeOrder
      ["reason", "involvedObject.namespace"] ∧
    (EventFieldSelectorFilter.mk
        [("reason", ["Failed"]), ("involvedObject.namespace", ["kube-system"])]).RangeOrder
      ["involvedObject.namespace", "reason"] ∧
    (EventFieldSelectorFilter.mk
        [("reason", ["Failed"]), ("involvedObject.namespace", ["kube-system"])]).Filter
      ["reason", "involvedObject.namespace"] ⟨"Warning", "Created", ⟨"Pod", "kube-system"⟩⟩ =
    (EventFieldSelectorFilter.mk
        [("reason", ["Failed"]), ("involvedObject.namespace", ["kube-system"])]).Filter
      ["involvedObject.namespace", "reason"] ⟨"Warning", "Created", ⟨"Pod", "kube-system"⟩⟩ ∧
    (EventFieldSelectorFilter.mk
        [("reason", ["Failed"]), ("involvedObject.namespace", ["kube-system"])]).Filter
      ["involvedObject.namespace", "reason"] ⟨"Warning", "Created", ⟨"Pod", "kube-system"⟩⟩
      = true :=
  ⟨List.Perm.refl _, List.Perm.swap _ _ _,
   (filter_independent_of_order
      ⟨[("reason", ["Failed"]), ("involvedObject.namespace", ["kube-system"])]⟩
      ⟨"Warning", "Created", ⟨"Pod", "kube-system"⟩⟩
      ["reason", "involvedObject.namespace"] ["involvedObject.namespace", "reason"]
      (List.Perm.refl _) (List.Perm.swap _ _ _)).1,
   by decide⟩

/-- C12. For every field-selector mapping in which a field `f` has an empty
list of accepted values and every event, the check of `f` never matches:
`Filter` answers on the mapping what it answers on the mapping with the entry
of `f` removed, whatever the visiting orders; and a mapping all of whose
entries hold empty lists rejects every event. -/
theorem empty_value_list_never_matches (e : EventFieldSelectorFilter) (f : String)
    (hempty : mapaccess e.MatchFieldSelector f = [])
    (order order' : List String) (horder : e.RangeOrder order)
    (horder' : (EventFieldSelectorFilter.mk (mapdelete e.MatchFieldSelector f)).RangeOrder
      order')
    (E : Event) :
    (∀ element, e.sliceContains f element = false) ∧
    e.Filter order E
      = (EventFieldSelectorFilter.mk (mapdelete e.MatchFieldSelector f)).Filter order' E ∧
    ((∀ entry ∈ e.MatchFieldSelector, entry.2 = []) → e.Filter order E = false) := by
  refine ⟨?_, ?_, ?_⟩
  · intro element
    have hnot : ¬ e.sliceContains f element = true := by
      rw [sliceContains_iff, hempty]
      simp
    simpa using hnot
  · have haccess : ∀ k, mapaccess (mapdelete e.MatchFieldSelector f) k
        = mapaccess e.MatchFieldSelector k := by
      intro k
      rw [mapaccess_mapdelete]
      by_cases hk : k = f
      · rw [if_pos hk, hk, hempty]
      · rw [if_neg hk]
    rw [Bool.eq_iff_iff, Filter_iff e order horder E, Filter_iff _ order' horder' E]
    simp only [haccess]
  · intro hall
    have hnot : ¬ e.Filter order E = true := by
      rw [Filter_iff e order horder E]
      simp [mapaccess_of_all_empty e.MatchFieldSelector hall]
    simpa using hnot

/-- The mapping reason ↦ [], involvedObject.kind ↦ [Pod] answers as the
mapping involvedObject.kind ↦ [Pod]; the mapping reason ↦ [] rejects the
event. -/
theorem empty_value_list_never_matches_witness :
    mapaccess [("reason", []), ("involvedObject.kind", ["Pod"])] "reason" = [] ∧
    mapdelete [("reason", []), ("involvedObject.kind", ["Pod"])] "reason"
      = [("involvedObject.kind", ["Pod"])] ∧
    (EventFieldSelectorFilter.mk [("reason", []), ("involvedObject.kind", ["Pod"])]).Filter
        ["involvedObject.kind", "reason"] ⟨"Warning", "Failed", ⟨"Pod", "default"⟩⟩
      = (EventFieldSelectorFilter.mk
          (mapdelete [("reason", []), ("involvedObject.kind", ["Pod"])] "reason")).Filter
        ["involvedObject.kind"] ⟨"Warning", "Failed", ⟨"Pod", "default"⟩⟩ ∧
    (EventFieldSelectorFilter.mk [("reason", [])]).Filter ["reason"]
        ⟨"Warning", "Failed", ⟨"Pod", "default"⟩⟩ = false :=
  ⟨by decide, by decide,
   (empty_value_list_never_matches
      ⟨[("reason", []), ("involvedObject.kind", ["Pod"])]⟩ "reason" (by decide)
      ["involvedObject.kind", "reason"] ["involvedObject.kind"]
      (List.Perm.swap _ _ _) (List.Perm.refl _)
      ⟨"Warning", "Failed", ⟨"Pod", "default"⟩⟩).2.1,
   (empty_value_list_never_matches ⟨[("reason", [])]⟩ "reason" (by decide)
      ["reason"] [] (List.Perm.refl _) (List.Perm.refl _)
      ⟨"Warning", "Failed", ⟨"Pod", "default"⟩⟩).2.2 (by decide)⟩

/-- C13. For every single specification on which the constructor succeeds,
the specification is `f:m` for a supported field `f`, the mapping has the one
entry of `f`, and the list stored under `f` is the sequence of the pieces of
`m` between its `|`, taken as they are: the list is not empty, no element holds
a `|`, joining the elements with `|` gives `m` back, and it is the only list
with these three properties. -/
theorem stored_values_are_segments (s : String) (e : EventFieldSelectorFilter)
    (hok : NewEventFieldSelectorFilter [s] = .ok e) :
    ∃ f m, s = f ++ ":" ++ m ∧
      (f = Reason ∨ f = InvolvedObjectKind ∨ f = involvedObjectNamespace) ∧
      e.MatchFieldSelector = [(f, strings.Split m '|')] ∧
      mapaccess e.MatchFieldSelector f ≠ [] ∧
      (∀ v ∈ mapaccess e.MatchFieldSelector f, '|' ∉ v.data) ∧
      strings.Join (mapaccess e.MatchFieldSelector f) "|" = m ∧
      (∀ ws : List String, ws ≠ [] → (∀ w ∈ ws, '|' ∉ w.data) →
        strings.Join ws "|" = m → ws = mapaccess e.MatchFieldSelector f) := by
  have hbar : ("|" : String) = String.singleton '|' := rfl
  obtain ⟨f, m, hs, hf, hrest⟩ :=
    selectorLoop_cons_ok [] _ s [] ((New_eq_ok_iff [s] e).1 hok)
  have hmap : e.MatchFieldSelector = [(f, strings.Split m '|')] := by
    simp only [selectorLoop, Except.ok.injEq] at hrest
    rw [← hrest]
    rfl
  have haccess : mapaccess e.MatchFieldSelector f = strings.Split m '|' := by
    rw [hmap]
    simp [mapaccess]
  refine ⟨f, m, ((strings.Split_eq_pair_iff s f m).1 hs).1, (mem_SupportField f).1 hf,
    hmap, ?_, ?_, ?_, ?_⟩
  · rw [haccess]
    exact strings.Split_ne_nil m '|'
  · rw [haccess]
    exact strings.not_mem_of_mem_Split m '|'
  · rw [haccess, hbar]
    exact strings.Join_Split m '|'
  · intro ws hne hws hjoin
    rw [haccess, ← hjoin, hbar]
    exact (strings.Split_Join ws '|' hne hws).symm

/-- The specification "reason:Failed| Killed ||x" stores the pieces
"Failed", " Killed ", "" and "x": blanks and empty pieces are kept. -/
theorem stored_values_are_segments_witness :
    NewEventFieldSelectorFilter ["reason:Failed| Killed ||x"]
      = .ok ⟨[("reason", ["Failed", " Killed ", "", "x"])]⟩ ∧
    ∃ f m, "reason:Failed| Killed ||x" = f ++ ":" ++ m ∧
      (f = Reason ∨ f = InvolvedObjectKind ∨ f = involvedObjectNamespace) ∧
      (EventFieldSelectorFilter.mk
        [("reason", ["Failed", " Killed ", "", "x"])]).MatchFieldSelector
        = [(f, strings.Split m '|')] ∧
      mapaccess [("reason", ["Failed", " Killed ", "", "x"])] f ≠ [] ∧
      (∀ v ∈ mapaccess [("reason", ["Failed", " Killed ", "", "x"])] f, '|' ∉ v.data) ∧
      strings.Join (mapaccess [("reason", ["Failed", " Killed ", "", "x"])] f) "|" = m ∧
      (∀ ws : List String, ws ≠ [] → (∀ w ∈ ws, '|' ∉ w.data) →
        strings.Join ws "|" = m →
        ws = mapaccess [("reason", ["Failed", " Killed ", "", "x"])] f) :=
  ⟨by decide,
   stored_values_are_segments "reason:Failed| Killed ||x"
     ⟨[("reason", ["Failed", " Killed ", "", "x"])]⟩ (by decide)⟩

/-- C14. A selector for a field not yet configured only widens the filter: for
every specification list `S` on which the constructor succeeds and every valid
specification `s` whose field no specification of `S` names, the constructor
succeeds on `S` followed by `s`, and every event the filter built from `S`
accepts is accepted by the filter built from `S` followed by `s`, whatever the
visiting orders.  With a field `S` already names this fails: the filter built
from "reason:A" accepts the reason "A", the filter built from "reason:A"
followed by "reason:B" rejects it. -/
theorem new_field_only_widens (S : List String) (s f m : String)
    (e : EventFieldSelectorFilter) (hok : NewEventFieldSelectorFilter S = .ok e)
    (hs : strings.Split s ':' = [f, m])
    (hf : f = Reason ∨ f = InvolvedObjectKind ∨ f = involvedObjectNamespace)
    (hnew : ∀ t ∈ S, ∀ m', strings.Split t ':' ≠ [f, m']) :
    (∃ e', NewEventFieldSelectorFilter (S ++ [s]) = .ok e' ∧
      ∀ (order order' : List String) (E : Event), e.RangeOrder order → e'.RangeOrder order' →
        e.Filter order E = true → e'.Filter order' E = true) ∧
    (∃ e1 e2, NewEventFieldSelectorFilter ["reason:A"] = .ok e1 ∧
      NewEventFieldSelectorFilter (["reason:A"] ++ ["reason:B"]) = .ok e2 ∧
      e1.RangeOrder ["reason"] ∧ e2.RangeOrder ["reason"] ∧
      e1.Filter ["reason"] ⟨"Warning", "A", ⟨"Pod", "default"⟩⟩ = true ∧
      e2.Filter ["reason"] ⟨"Warning", "A", ⟨"Pod", "default"⟩⟩ = false) := by
  constructor
  · have hloop := (New_eq_ok_iff S e).1 hok
    have hloop' := selectorLoop_snoc [] _ S s f m hloop hs ((mem_SupportField f).2 hf)
    refine ⟨⟨mapassign e.MatchFieldSelector f (strings.Split m '|')⟩,
      (New_eq_ok_iff _ _).2 hloop', ?_⟩
    intro order order' E horder horder' haccept
    rw [Filter_iff_exists _ order' horder' E]
    obtain ⟨g, hg, hmem⟩ := (Filter_iff_exists e order horder E).1 haccept
    have hfkey : f ∉ mapkeys e.MatchFieldSelector := by
      intro hk
      rcases (mem_mapkeys_selectorLoop [] _ S hloop f).1 hk with h | ⟨t, ht, m', hsplit⟩
      · simp [mapkeys] at h
      · exact hnew t ht m' hsplit
    have hgf : ¬ g = f := by
      intro h
      rw [h, mapaccess_of_not_mem _ f hfkey] at hmem
      simp at hmem
    refine ⟨g, hg, ?_⟩
    show E.fieldValue g ∈ mapaccess (mapassign e.MatchFieldSelector f (strings.Split m '|')) g
    rw [mapaccess_mapassign, if_neg hgf]
    exact hmem
  · exact ⟨⟨[("reason", ["A"])]⟩, ⟨[("reason", ["B"])]⟩, by decide, by decide,
      List.Perm.refl _, List.Perm.refl _, by decide, by decide⟩

/-- The filter built from "reason:Failed" accepts the reason "Failed"; so does
the filter built from "reason:Failed" followed by "involvedObject.kind:Pod",
which also accepts the kind "Pod". -/
theorem new_field_only_widens_witness :
    NewEventFieldSelectorFilter ["reason:Failed"] = .ok ⟨[("reason", ["Failed"])]⟩ ∧
    strings.Split "involvedObject.kind:Pod" ':' = ["involvedObject.kind", "Pod"] ∧
    (∃ e', NewEventFieldSelectorFilter (["reason:Failed"] ++ ["involvedObject.kind:Pod"])
        = .ok e' ∧
      ∀ (order order' : List String) (E : Event),
        (EventFieldSelectorFilter.mk [("reason", ["Failed"])]).RangeOrder order →
        e'.RangeOrder order' →
        (EventFieldSelectorFilter.mk [("reason", ["Failed"])]).Filter order E = true →
        e'.Filter order' E = true) ∧
    NewEventFieldSelectorFilter (["reason:Failed"] ++ ["involvedObject.kind:Pod"])
      = .ok ⟨[("reason", ["Failed"]), ("involvedObject.kind", ["Pod"])]⟩ ∧
    (EventFieldSelectorFilter.mk [("reason", ["Failed"])]).Filter ["reason"]
      ⟨"Warning", "Failed", ⟨"Job", "default"⟩⟩ = true ∧
    (EventFieldSelectorFilter.mk
        [("reason", ["Failed"]), ("involvedObject.kind", ["Pod"])]).Filter
      ["involvedObject.kind", "reason"] ⟨"Warning", "Failed", ⟨"Job", "default"⟩⟩ = true ∧
    (EventFieldSelectorFilter.mk [("reason", ["Failed"])]).Filter ["reason"]
      ⟨"Warning", "Created", ⟨"Pod", "default"⟩⟩ = false ∧
    (EventFieldSelectorFilter.mk
        [("reason", ["Failed"]), ("involvedObject.kind", ["Pod"])]).Filter
      ["involvedObject.kind", "reason"] ⟨"Warning", "Created", ⟨"Pod", "default"⟩⟩ = true :=
  ⟨by decide, by decide,
   (new_field_only_widens ["reason:Failed"] "involvedObject.kind:Pod" "involvedObject.kind"
      "Pod" ⟨[("reason", ["Failed"])]⟩ (by decide) (by decide) (Or.inr (Or.inl rfl))
      (by
        intro t ht m' hsplit
        rw [List.mem_singleton.1 ht] at hsplit
        have hcut : strings.Split "reason:Failed" ':' = ["reason", "Failed"] := by decide
        rw [hcut] at hsplit
        have hfield : "reason" = "involvedObject.kind" := (List.cons.inj hsplit).1
        revert hfield
        decide)).1,
   by decide, by decide, by decide, by decide, by decide⟩

end filters
